import Mathlib

/-!
# Verification of the WikiTable table-reconstruction engine

A shallow embedding of `wikitable.py` (class `WikiTable` and its options
object `WikiTableOptions`), together with theorems settling the frozen
claims about the specification.

Conventions:
* HTML elements are modelled by the inductive `Node` (tag, attributes,
  children); text nodes carry a string.
* BeautifulSoup's mutation of the parsed tree (`tag.extract()`) is made
  explicit: `get_clean_text_from_soup` returns both the text and the
  mutated cell subtree.
* Table cells (`td`/`th`) are modelled by `Cell`: the numeric values of
  the `rowspan`/`colspan` attributes (Python's `int(...)` applied to the
  attribute string) plus the content subtree.
* The span dictionary `row_col_spans` is an insertion-ordered association
  list, mirroring a Python `dict`.
-/

namespace WikiTable

/-! A node of the parsed HTML tree: an element with tag name, attributes
and children, or a text node.  Children form their own list type so that
all tree recursions are structural (and therefore compute inside the
kernel). -/
mutual
inductive Node where
  | elem (tag : String) (attrs : List (String × String)) (children : NodeList)
  | txt (s : String)
inductive NodeList where
  | nil
  | cons (head : Node) (tail : NodeList)
end

/-! `get_text()`: concatenation of all text content, document order. -/
mutual
def Node.getText : Node → String
  | .txt s => s
  | .elem _ _ cs => NodeList.getText cs
def NodeList.getText : NodeList → String
  | .nil => ""
  | .cons n ns => n.getText ++ NodeList.getText ns
end

/-- Does the list of subtrees contain an element with the given tag, at
any depth?  Models `td_soup.find_all(tag)` being non-empty, which
searches all descendants of the root. -/
def NodeList.hasTag (t : String) : NodeList → Bool
  | .nil => false
  | .cons (.txt _) ns => NodeList.hasTag t ns
  | .cons (.elem tag _ cs) ns =>
      tag = t || NodeList.hasTag t cs || NodeList.hasTag t ns

/-- Remove the first element with the given tag, in document (pre-order)
order, from a list of subtrees.  Returns `none` when no such element
exists.  Models `td_soup.<tag>.extract()`, which detaches the first
matching descendant (with its whole subtree) from the parsed tree. -/
def NodeList.extractFirst (t : String) : NodeList → Option NodeList
  | .nil => none
  | .cons (.txt s) ns =>
      match NodeList.extractFirst t ns with
      | some ns2 => some (.cons (.txt s) ns2)
      | none => none
  | .cons (.elem tag attrs cs) ns =>
      if tag = t then some ns
      else
        match NodeList.extractFirst t cs with
        | some cs2 => some (.cons (.elem tag attrs cs2) ns)
        | none =>
          match NodeList.extractFirst t ns with
          | some ns2 => some (.cons (.elem tag attrs cs) ns2)
          | none => none

/-- One pass of the tag-removal loop body in `get_clean_text_from_soup`:
`if td_soup.find_all(tag): td_soup.<tag>.extract()`. -/
def cleanStep (t : String) : Node → Node
  | .txt s => .txt s
  | .elem tag attrs cs =>
      if NodeList.hasTag t cs then
        match NodeList.extractFirst t cs with
        | some cs2 => .elem tag attrs cs2
        | none => .elem tag attrs cs
      else .elem tag attrs cs

/-- Is this element a `<span>` whose `class` attribute contains `geo`?
Models the BeautifulSoup filter `find('span', {'class' : 'geo'})`. -/
def isGeoSpan : Node → Bool
  | .elem "span" attrs _ =>
      match attrs.lookup "class" with
      | some c => (c.splitOn " ").contains "geo"
      | none => false
  | _ => false

/-- First descendant `<span class=geo>` in document order, if any. -/
def NodeList.findGeo : NodeList → Option Node
  | .nil => none
  | .cons n ns =>
      if isGeoSpan n then some n
      else
        match n with
        | .elem _ _ cs =>
            match NodeList.findGeo cs with
            | some g => some g
            | none => NodeList.findGeo ns
        | .txt _ => NodeList.findGeo ns

/-- The characters removed by Python's `str.strip()` (ASCII whitespace). -/
def isPySpace (c : Char) : Bool :=
  c = ' ' || c = '\t' || c = '\n' || c = '\r' || c = '\x0b' || c = '\x0c'

/-- Python `str.strip()`. -/
def pyStrip (s : String) : String :=
  ⟨((s.toList.dropWhile isPySpace).reverse.dropWhile isPySpace).reverse⟩

/-- Python's single-character `str.replace(a, b)`. -/
def replaceChar (a b : Char) (s : String) : String :=
  ⟨s.toList.map fun c => if c = a then b else c⟩

/-- The final clean-up in `get_clean_text_from_soup`: strip, collapse
newlines to spaces (`replace('\\n', ' ')`), replace the en-dash by a
hyphen (`replace('\\u2013', '-')`). -/
def normalizeText (s : String) : String :=
  replaceChar '–' '-' (replaceChar '\n' ' ' (pyStrip s))

/-- `WikiTable.get_clean_text_from_soup(td_soup)`.

The function mutates the shared parsed tree (each `<tag>.extract()`
permanently detaches the first matching descendant), so the embedding
returns the extracted text together with the cell subtree as it is left
behind. -/
def get_clean_text_from_soup (td : Node) : String × Node :=
  let td3 := cleanStep "br" (cleanStep "small" (cleanStep "sup" td))
  let raw :=
    match td3 with
    | .elem _ _ cs =>
        match NodeList.findGeo cs with
        | some g => g.getText
        | none => td3.getText
    | .txt s => s
  (normalizeText raw, td3)

/-! ## Cells and the span-projection dictionary -/

/-- A `td`/`th` cell: the numeric span attributes, as far as present
(`has_attr` / `int(get(...))` in the source), and the content subtree
used by the Text Normalizer. -/
structure Cell where
  attrs : List (String × Nat)
  content : Node

/-- `cell_soup.has_attr(a)`. -/
def Cell.hasAttr (c : Cell) (a : String) : Bool :=
  (c.attrs.lookup a).isSome

/-- `int(cell_soup.get(a))` (only ever evaluated under `has_attr`). -/
def Cell.attrNat (c : Cell) (a : String) : Nat :=
  (c.attrs.lookup a).getD 0

/-- The span dictionary `row_col_spans`: a Python `dict` keyed by
`(row, col)` pairs, modelled as an insertion-ordered association list. -/
def SpanMap := List ((Nat × Nat) × String)

instance : EmptyCollection SpanMap := ⟨([] : List ((Nat × Nat) × String))⟩

/-- `dict` assignment `m[k] = v`: replace in place when the key exists,
append otherwise. -/
def SpanMap.insert (m : SpanMap) (k : Nat × Nat) (v : String) : SpanMap :=
  match m with
  | [] => [(k, v)]
  | (k', v') :: rest =>
      if k' = k then (k, v) :: rest
      else (k', v') :: SpanMap.insert rest k v

/-- `m.keys()`, in insertion order. -/
def SpanMap.keys (m : SpanMap) : List (Nat × Nat) :=
  (m : List ((Nat × Nat) × String)).map Prod.fst

/-- `m[k]` as an optional lookup. -/
def SpanMap.get? (m : SpanMap) (k : Nat × Nat) : Option String :=
  match m with
  | [] => none
  | (k', v) :: rest => if k' = k then some v else SpanMap.get? rest k

/-! ## `WikiTable._save_row_col_span` -/

/-- `itertools.product(range a, range b)` in iteration order (first
component is the outer loop). -/
def prodRange (a b : Nat) : List (Nat × Nat) :=
  (List.range a).flatMap fun x => (List.range b).map fun y => (x, y)

/-- The coordinates written by `_save_row_col_span` for a cell at
`(row, col)`: when both attributes are present the extents are
cross-applied (`colspan` counts along the row direction and `rowspan`
along the column direction); with a single attribute only that
attribute's own axis is extended. -/
def saveCoords (row col : Nat) (cell : Cell) : List (Nat × Nat) :=
  if cell.hasAttr "rowspan" && cell.hasAttr "colspan" then
    (prodRange (cell.attrNat "colspan") (cell.attrNat "rowspan")).map
      fun ro => (row + ro.1, col + ro.2)
  else if cell.hasAttr "rowspan" then
    (List.range (cell.attrNat "rowspan")).map fun ro => (row + ro, col)
  else if cell.hasAttr "colspan" then
    (List.range (cell.attrNat "colspan")).map fun co => (row, col + co)
  else []

/-- Write the cell's text into a list of coordinates.  Each write calls
`get_clean_text_from_soup` afresh on the (mutated) cell content, as the
source does inside each loop. -/
def writeSpanCells : List (Nat × Nat) → SpanMap → Node → SpanMap × Node
  | [], m, n => (m, n)
  | k :: ks, m, n =>
      writeSpanCells ks (m.insert k (get_clean_text_from_soup n).1)
        (get_clean_text_from_soup n).2

/-- `WikiTable._save_row_col_span(row, col, cell_soup, row_col_spans)`.
Returns the updated dictionary and the cell content as left by the
normalizer's mutations. -/
def save_row_col_span (row col : Nat) (cell : Cell) (m : SpanMap) :
    SpanMap × Node :=
  writeSpanCells (saveCoords row col cell) m cell.content

/-! ## `WikiTable._load_row_col_span` -/

/-- Stable insertion into a column-sorted list of keys; helper for
`sorted(..., key = itemgetter(1))`. -/
def insertByCol (p : Nat × Nat) : List (Nat × Nat) → List (Nat × Nat)
  | [] => [p]
  | q :: qs => if p.2 ≤ q.2 then p :: q :: qs else q :: insertByCol p qs

/-- `sorted(repeat_cells, key = operator.itemgetter(1))`. -/
def sortByCol : List (Nat × Nat) → List (Nat × Nat)
  | [] => []
  | p :: ps => insertByCol p (sortByCol ps)

/-- The first group of
`itertools.groupby(enumerate(cols), key = lambda i: i[1] - i[0])`:
the longest prefix on which column minus position stays equal to the
head column. -/
def firstGroup (cols : List Nat) : List Nat :=
  match cols with
  | [] => []
  | c0 :: _ =>
      ((cols.enum.takeWhile fun ic => (ic.2 : Int) - ic.1 = (c0 : Int)).map
        Prod.snd)

/-- `WikiTable._load_row_col_span(row, col, row_col_spans)`: the ordered
projected values of `row` forming a contiguous run of columns starting
at `col` or `col + 1`.  A read-only query: the dictionary argument is
left untouched. -/
def load_row_col_span (row col : Nat) (m : SpanMap) : List String :=
  match sortByCol ((SpanMap.keys m).filter
      fun rc => rc.1 = row && col ≤ rc.2) with
  | [] => []
  | first :: rest =>
      if first.2 ≠ col ∧ first.2 ≠ col + 1 then []
      else
        (firstGroup ((first :: rest).map Prod.snd)).map
          fun c => (m.get? (row, c)).getD ""

/-! ## Options (`WikiTableOptions`) -/

/-- The recognized options and their runtime types.  `None` in Python is
`Option.none`; the list-valued options distinguish `None` from `[]`.
Regex patterns are kept as strings; their matching semantics enters the
model through an abstract matcher. -/
structure Options where
  url : Option String
  tab_num : Nat
  tab_fil : Option String
  col_th : Bool
  row_th : Bool
  col_ex : Option (List Nat)
  row_ex : Option (List Nat)
  col_ref : Option (List Nat)
  row_ref : Option (List Nat)
  regex_ex : Option (List String)
  regex_pos : Option (List (Int × Int))
  regex_max : Option Nat
  on_link : Option Unit
deriving DecidableEq

/-- `WikiTableOptions._default_options`. -/
def defaultOptions : Options where
  url := none
  tab_num := 0
  tab_fil := none
  col_th := false
  row_th := false
  col_ex := none
  row_ex := none
  col_ref := some []
  row_ref := some []
  regex_ex := none
  regex_pos := none
  regex_max := none
  on_link := none

/-- A `kwargs` dictionary of per-call overrides: each recognized option
is either absent or supplies a new value. -/
structure Overrides where
  url : Option (Option String) := none
  tab_num : Option Nat := none
  tab_fil : Option (Option String) := none
  col_th : Option Bool := none
  row_th : Option Bool := none
  col_ex : Option (Option (List Nat)) := none
  row_ex : Option (Option (List Nat)) := none
  col_ref : Option (Option (List Nat)) := none
  row_ref : Option (Option (List Nat)) := none
  regex_ex : Option (Option (List String)) := none
  regex_pos : Option (Option (List (Int × Int))) := none
  regex_max : Option (Option Nat) := none
  on_link : Option (Option Unit) := none

/-- `options.update(kwargs)`. -/
def applyOverrides (o : Options) (kw : Overrides) : Options where
  url := kw.url.getD o.url
  tab_num := kw.tab_num.getD o.tab_num
  tab_fil := kw.tab_fil.getD o.tab_fil
  col_th := kw.col_th.getD o.col_th
  row_th := kw.row_th.getD o.row_th
  col_ex := kw.col_ex.getD o.col_ex
  row_ex := kw.row_ex.getD o.row_ex
  col_ref := kw.col_ref.getD o.col_ref
  row_ref := kw.row_ref.getD o.row_ref
  regex_ex := kw.regex_ex.getD o.regex_ex
  regex_pos := kw.regex_pos.getD o.regex_pos
  regex_max := kw.regex_max.getD o.regex_max
  on_link := kw.on_link.getD o.on_link

/-- `WikiTableOptions.updated(kwargs)` driving a body, as
`@contextmanager` executes it: save a copy, apply the overrides, run the
body; the lines after the `yield` (which restore the saved copy) run
only when the body returns normally — an exception thrown at the yield
point propagates and skips them.  The body receives the merged options
and reports the option state it left behind, so the theorem can speak
about mutations the body itself performed. -/
def updatedRun {α : Type} (o : Options) (kw : Overrides)
    (body : Options → Except String α × Options) :
    Except String α × Options :=
  match body (applyOverrides o kw) with
  | (.ok a, _) => (.ok a, o)
  | (.error e, after) => (.error e, after)

/-! ## `WikiTable._want_links` and `_handle_links` -/

/-- `WikiTable._want_links(row, col, options)`.  Raising is modelled by
`Except.error`. -/
def want_links (row col : Nat) (o : Options) : Except String Bool :=
  let rowCare := o.row_ref ≠ none ∧ o.row_ref ≠ some []
  let colCare := o.col_ref ≠ none ∧ o.col_ref ≠ some []
  if ¬colCare ∧ ¬rowCare then .ok false
  else if colCare ∧ rowCare then
    .error "Cannot follow links across both rows and cols simultaneously"
  else if rowCare then
    match o.row_ref with
    | none => .ok true
    | some l => .ok (row ∈ l)
  else if colCare then
    match o.col_ref with
    | none => .ok true
    | some l => .ok (col ∈ l)
  else .ok false

/-- The values a followed link contributes to the row: the nested
`on_link.pandas_from_url(...)` call, abstracted as an oracle (its result
depends on the network and the nested engine's configuration, which no
claim constrains). -/
def LinkOracle := Nat → Nat → Cell → List String

/-- `WikiTable._handle_links(row, col, cell_soup, options)`: consults
`_want_links` first; when it answers `False` the contribution is empty
and no fetch happens. -/
def handle_links (oracle : LinkOracle) (row col : Nat) (cell : Cell)
    (o : Options) : Except String (List String) := do
  let w ← want_links row col o
  if w then pure (oracle row col cell) else pure []

/-! ## `WikiTable._generate_body` -/

/-- The per-row mutable state of the body generator: the shared span
dictionary, the running column offset and the row built so far. -/
structure GenState where
  spans : SpanMap
  colOff : Nat
  toYield : List String

/-- The emit guard at `wikitable.py:426-427`: the cell's own text is
appended exactly when `(row_idx, col_idx)` is not a key of the span
dictionary *after* `_save_row_col_span` has run for this cell. -/
def emitsOwnText (rowIdx colIdx : Nat) (cell : Cell) (m : SpanMap) : Bool :=
  (((save_row_col_span rowIdx colIdx cell m).1).get? (rowIdx, colIdx)).isNone

/-- One iteration of the inner loop of `_generate_body` (everything
except the link handling, which accumulates separately): register spans,
possibly emit the cell's own text, absorb the trailing projected run,
and advance the offset when the cell carries no span attribute. -/
def cellStep (rowIdx colRaw : Nat) (cell : Cell) (st : GenState) : GenState :=
  let colIdx := colRaw + st.colOff
  let m1 := (save_row_col_span rowIdx colIdx cell st.spans).1
  let n1 := (save_row_col_span rowIdx colIdx cell st.spans).2
  let toY1 :=
    if emitsOwnText rowIdx colIdx cell st.spans then
      st.toYield ++ [(get_clean_text_from_soup n1).1]
    else st.toYield
  let repeats := load_row_col_span rowIdx colIdx m1
  let colOff1 :=
    if ¬cell.hasAttr "colspan" ∧ ¬cell.hasAttr "rowspan" then
      st.colOff + repeats.length
    else st.colOff
  { spans := m1, colOff := colOff1, toYield := toY1 ++ repeats }

/-- The inner loop of `_generate_body` over the cells of one row,
accumulating linked data on the side. -/
def cellsFold (oracle : LinkOracle) (o : Options) (rowIdx : Nat) :
    Nat → List Cell → GenState → List String →
    Except String (GenState × List String)
  | _, [], st, linked => pure (st, linked)
  | colRaw, cell :: rest, st, linked => do
      let ld ← handle_links oracle rowIdx (colRaw + st.colOff) cell o
      cellsFold oracle o rowIdx (colRaw + 1) rest
        (cellStep rowIdx colRaw cell st) (linked ++ ld)

/-- One outer-loop iteration of `_generate_body`: prepend the projected
run at column 0, then walk the row's cells. -/
def rowStep (oracle : LinkOracle) (o : Options) (rowIdx : Nat)
    (cells : List Cell) (m : SpanMap) :
    Except String (List String × SpanMap) := do
  let r ← cellsFold oracle o rowIdx 0
    (cells.drop (if o.row_th then 1 else 0))
    { spans := m, colOff := (load_row_col_span rowIdx 0 m).length,
      toYield := load_row_col_span rowIdx 0 m } []
  pure (r.1.toYield ++ r.2, r.1.spans)

/-- The row recursion of `_generate_body`, threading the span dictionary. -/
def bodyGo (oracle : LinkOracle) (o : Options) :
    Nat → SpanMap → List (List Cell) → Except String (List (List String))
  | _, _, [] => pure []
  | rowIdx, m, cells :: rest => do
      let r ← rowStep oracle o rowIdx cells m
      let others ← bodyGo oracle o (rowIdx + 1) r.2 rest
      pure (r.1 :: others)

/-- `WikiTable._generate_body(tr_soup_list, options)`, fully consumed
(as `pd.DataFrame(data = ...)` consumes it). -/
def generate_body (oracle : LinkOracle) (table : List (List Cell))
    (o : Options) : Except String (List (List String)) :=
  bodyGo oracle o 0 ∅ (table.drop (if o.col_th then 1 else 0))

/-! ## `WikiTable._generate_extracted_body` -/

/-- `handle_care(care, index, index_list)`. -/
def handleCare (care : Bool) (index : Nat) (indexList : Option (List Nat)) :
    Bool :=
  if care then index ∈ indexList.getD [] else true

/-- `WikiTable._generate_extracted_body(body_generator, options)` as a
function on the fully generated body: when neither filter is configured
the body passes through unchanged (the code's trailing loop then runs on
an exhausted generator and contributes nothing). -/
def generate_extracted_body (rows : List (List String)) (o : Options) :
    List (List String) :=
  let rowCare := o.row_ex ≠ none
  let colCare := o.col_ex ≠ none
  if ¬colCare ∧ ¬rowCare then rows
  else
    (rows.enum.filterMap fun rrow =>
      if handleCare rowCare rrow.1 o.row_ex then
        some ((rrow.2.enum.filterMap fun ccol =>
          if handleCare colCare ccol.1 o.col_ex then some ccol.2 else none))
      else none)

/-- The Grid handed to `pd.DataFrame`: the filtered body. -/
def wikiGrid (oracle : LinkOracle) (table : List (List Cell)) (o : Options) :
    Except String (List (List String)) := do
  let body ← generate_body oracle table o
  pure (generate_extracted_body body o)

/-! ## `WikiTable._pandas_extract`

The grid is indexed by its default integer labels (no header modes and
no keep-filters renaming them), so `DataFrame.loc` lookups coincide with
positional grid lookups.  A regex is kept abstract as a matcher
`String → String → Bool` (pattern, cell text ↦ `str.contains`). -/

/-- A regex engine: does the cell text contain a match of the pattern? -/
def Matcher := String → String → Bool

/-- `data_df.loc[r, c]` over integer labels; a label outside the grid is
a lookup error (`None`). -/
def gridLookup (g : List (List String)) (r c : Int) : Option String :=
  if r < 0 ∨ c < 0 then none
  else (g.get? r.toNat).bind fun row => row.get? c.toNat

/-- The number of DataFrame columns: the longest row. -/
def numCols (g : List (List String)) : Nat :=
  g.foldr (fun row acc => max row.length acc) 0

/-- The match coordinates of one pattern, in the order `_pandas_extract`
collects them: columns left to right, and matching rows top to bottom
within each column. -/
def matchCoords (mt : Matcher) (g : List (List String)) (pat : String) :
    List (Nat × Nat) :=
  (List.range (numCols g)).flatMap fun (c : Nat) =>
    (List.range g.length).filterMap fun (r : Nat) =>
      match gridLookup g (r : Int) (c : Int) with
      | some s => if mt pat s then some (r, c) else none
      | none => none

/-- The `regex_pos` preprocessing: default to `(0, 0)` per pattern, pad a
short list with `(0, 0)`. -/
def posList (patterns : List String) (pos : Option (List (Int × Int))) :
    List (Int × Int) :=
  match pos with
  | none => patterns.map fun _ => ((0 : Int), (0 : Int))
  | some ps =>
      ps ++ (List.range (patterns.length - ps.length)).map
        fun _ => ((0 : Int), (0 : Int))

/-- The body of the per-pattern loop in `_pandas_extract`: offset-adjust
the matches, truncate to `regex_max`, and look every survivor up in the
grid; a failed lookup aborts the whole extraction. -/
def extractOne (mt : Matcher) (g : List (List String))
    (pat : String) (pos : Int × Int) (maxM : Option Nat) :
    Option (List String) :=
  ((match maxM with
    | none =>
        (matchCoords mt g pat).map fun rc : Nat × Nat =>
          ((rc.1 : Int) + pos.1, (rc.2 : Int) + pos.2)
    | some k =>
        ((matchCoords mt g pat).map fun rc : Nat × Nat =>
          ((rc.1 : Int) + pos.1, (rc.2 : Int) + pos.2)).take k) :
    List (Int × Int)).mapM
    fun rc : Int × Int => gridLookup g rc.1 rc.2

/-- `WikiTable._pandas_extract(data_df, options)` for configured
patterns: concatenate the per-pattern extractions in order. -/
def pandas_extract (mt : Matcher) (g : List (List String))
    (patterns : List String) (pos : Option (List (Int × Int)))
    (maxM : Option Nat) : Option (List String) :=
  (patterns.zip (posList patterns pos)).foldlM
    (fun acc pp => do
      let vals ← extractOne mt g pp.1 pp.2 maxM
      pure (acc ++ vals))
    []

/-! ## The observable I/O order of `pandas_from_url` -/

/-- The externally observable events of one `pandas_from_url` call that
the error-ordering claims speak about: page fetches and the
conflicting-link-scope error. -/
inductive Event where
  | fetch (url : String)
  | confError
deriving DecidableEq

/-- The event trace of `pandas_from_url(...)`: the root page is fetched
first (`requests.get(options.url)`), the table is parsed, and only then
is the body generated — whose consumption is where `_want_links` can
raise.  Link fetches never happen on the error path because
`_handle_links` consults `_want_links` before touching the network. -/
def pandasFromUrlTrace (oracle : LinkOracle) (o : Options)
    (table : List (List Cell)) : List Event :=
  Event.fetch (o.url.getD "") ::
    (match generate_body oracle table o with
     | .error _ => [Event.confError]
     | .ok _ => [])

/-! ## Instrumented body generation (for the span-map invariant)

`TState` carries the generator state together with two ghost fields that
record history only: the coordinates whose physical cell independently
emitted its own text, and each processed cell with its computed
coordinate.  The core fields evolve exactly by `cellStep`. -/

structure TState where
  core : GenState
  emitted : List (Nat × Nat)
  processed : List ((Nat × Nat) × Cell)

/-- Instrumented cell step: `cellStep` plus history bookkeeping. -/
def traceCell (rowIdx colRaw : Nat) (cell : Cell) (t : TState) : TState where
  core := cellStep rowIdx colRaw cell t.core
  emitted :=
    t.emitted ++
      (if emitsOwnText rowIdx (colRaw + t.core.colOff) cell t.core.spans then
        [(rowIdx, colRaw + t.core.colOff)] else [])
  processed := t.processed ++ [((rowIdx, colRaw + t.core.colOff), cell)]

/-- The states after each cell of one row (prefix-closed view). -/
def traceRowGo (rowIdx : Nat) : Nat → List Cell → TState → List TState
  | _, [], _ => []
  | colRaw, cell :: rest, t =>
      let t' := traceCell rowIdx colRaw cell t
      t' :: traceRowGo rowIdx (colRaw + 1) rest t'

/-- Reset the per-row fields at the start of a row, as the outer loop of
`_generate_body` does. -/
def rowInit (rowIdx : Nat) (t : TState) : TState :=
  let toYield0 := load_row_col_span rowIdx 0 t.core.spans
  { t with core := ⟨t.core.spans, toYield0.length, toYield0⟩ }

/-- The last element of a trace, or the seed when the row was empty. -/
def lastState (t : TState) (l : List TState) : TState :=
  l.getLast?.getD t

/-- All intermediate states of body generation, row by row. -/
def bodyTraceGo : Nat → TState → List (List Cell) → List TState
  | _, _, [] => []
  | rowIdx, t, cells :: rest =>
      let states := traceRowGo rowIdx 0 cells (rowInit rowIdx t)
      states ++ bodyTraceGo (rowIdx + 1) (lastState (rowInit rowIdx t) states) rest

/-- The initial instrumented state. -/
def initTState : TState := ⟨⟨∅, 0, []⟩, [], []⟩

/-- Every state the span dictionary passes through while `_generate_body`
processes `table` (header modes off; the dictionary evolution does not
depend on links or filters). -/
def bodyTrace (table : List (List Cell)) : List TState :=
  initTState :: bodyTraceGo 0 initTState table

/-! ## Lemmas about the span dictionary -/

theorem SpanMap.get?_insert (m : SpanMap) (k : Nat × Nat) (v : String)
    (k' : Nat × Nat) :
    (m.insert k v).get? k' = if k = k' then some v else m.get? k' := by
  induction m with
  | nil => simp [SpanMap.insert, SpanMap.get?]
  | cons kv rest ih =>
      rcases kv with ⟨k0, v0⟩
      simp only [SpanMap.insert]
      by_cases h0 : k0 = k
      · subst h0
        simp only [if_pos rfl, SpanMap.get?]
        by_cases h : k0 = k' <;> simp [h]
      · simp only [if_neg h0, SpanMap.get?]
        by_cases h : k0 = k'
        · subst h
          have hkk : ¬ k = k0 := fun he => h0 he.symm
          simp [hkk]
        · simp [h, ih]

theorem SpanMap.isSome_get?_iff (m : SpanMap) (k : Nat × Nat) :
    (m.get? k).isSome ↔ k ∈ m.keys := by
  induction m with
  | nil => simp [SpanMap.get?, SpanMap.keys]
  | cons kv rest ih =>
      rcases kv with ⟨k0, v0⟩
      simp only [SpanMap.get?, SpanMap.keys, List.map_cons, List.mem_cons]
      by_cases h : k0 = k
      · simp [h]
      · have h' : ¬ k = k0 := fun he => h he.symm
        simpa [h, h', SpanMap.keys] using ih

theorem SpanMap.mem_keys_insert (m : SpanMap) (k : Nat × Nat) (v : String)
    (p : Nat × Nat) :
    p ∈ (m.insert k v).keys ↔ p = k ∨ p ∈ m.keys := by
  rw [← SpanMap.isSome_get?_iff (m.insert k v) p, ← SpanMap.isSome_get?_iff m p,
    SpanMap.get?_insert]
  by_cases h : k = p
  · simp [h]
  · have h' : ¬ p = k := fun he => h he.symm
    simp [h, h']

theorem writeSpanCells_get? (ks : List (Nat × Nat)) (m : SpanMap) (n : Node)
    (p : Nat × Nat) :
    (((writeSpanCells ks m n).1).get? p).isSome ↔
      p ∈ ks ∨ (m.get? p).isSome := by
  induction ks generalizing m n with
  | nil => simp [writeSpanCells]
  | cons k ks ih =>
      simp only [writeSpanCells, List.mem_cons]
      rw [ih, SpanMap.get?_insert]
      by_cases h : k = p
      · simp [h]
      · have h' : ¬ p = k := fun he => h he.symm
        simp only [h, if_false, h']
        tauto

theorem writeSpanCells_mem_keys (ks : List (Nat × Nat)) (m : SpanMap)
    (n : Node) (p : Nat × Nat) :
    p ∈ ((writeSpanCells ks m n).1).keys ↔ p ∈ ks ∨ p ∈ m.keys := by
  rw [← SpanMap.isSome_get?_iff, ← SpanMap.isSome_get?_iff]
  exact writeSpanCells_get? ks m n p

theorem save_row_col_span_mem_keys (row col : Nat) (cell : Cell)
    (m : SpanMap) (p : Nat × Nat) :
    p ∈ ((save_row_col_span row col cell m).1).keys ↔
      p ∈ saveCoords row col cell ∨ p ∈ m.keys :=
  writeSpanCells_mem_keys _ m cell.content p

theorem mem_prodRange (a b : Nat) (p : Nat × Nat) :
    p ∈ prodRange a b ↔ p.1 < a ∧ p.2 < b := by
  cases p with
  | mk x y =>
      simp only [prodRange, List.mem_flatMap, List.mem_map, List.mem_range]
      constructor
      · rintro ⟨i, hi, j, hj, h⟩
        cases h
        exact ⟨hi, hj⟩
      · rintro ⟨hx, hy⟩
        exact ⟨x, hx, y, hy, rfl⟩

theorem mem_saveCoords_both (row col : Nat) (cell : Cell) (rs cs : Nat)
    (hr : cell.attrs.lookup "rowspan" = some rs)
    (hc : cell.attrs.lookup "colspan" = some cs) (p : Nat × Nat) :
    p ∈ saveCoords row col cell ↔
      row ≤ p.1 ∧ p.1 < row + cs ∧ col ≤ p.2 ∧ p.2 < col + rs := by
  have hR : cell.hasAttr "rowspan" = true := by simp [Cell.hasAttr, hr]
  have hC : cell.hasAttr "colspan" = true := by simp [Cell.hasAttr, hc]
  have hrv : cell.attrNat "rowspan" = rs := by simp [Cell.attrNat, hr]
  have hcv : cell.attrNat "colspan" = cs := by simp [Cell.attrNat, hc]
  simp only [saveCoords, hR, hC, Bool.and_self, if_true, List.mem_map, hrv,
    hcv]
  constructor
  · rintro ⟨q, hq, rfl⟩
    rw [mem_prodRange] at hq
    dsimp only
    omega
  · rintro ⟨h1, h2, h3, h4⟩
    refine ⟨(p.1 - row, p.2 - col), ?_, ?_⟩
    · rw [mem_prodRange]
      constructor <;> simp <;> omega
    · cases p
      simp only [Prod.mk.injEq]
      omega

theorem mem_saveCoords_rowOnly (row col : Nat) (cell : Cell) (rs : Nat)
    (hr : cell.attrs.lookup "rowspan" = some rs)
    (hc : cell.attrs.lookup "colspan" = none) (p : Nat × Nat) :
    p ∈ saveCoords row col cell ↔
      p.2 = col ∧ row ≤ p.1 ∧ p.1 < row + rs := by
  have hR : cell.hasAttr "rowspan" = true := by simp [Cell.hasAttr, hr]
  have hC : cell.hasAttr "colspan" = false := by simp [Cell.hasAttr, hc]
  have hrv : cell.attrNat "rowspan" = rs := by simp [Cell.attrNat, hr]
  simp only [saveCoords, hR, hC, Bool.and_false, Bool.false_eq_true,
    if_false, if_true, List.mem_map, List.mem_range, hrv]
  constructor
  · rintro ⟨q, hq, rfl⟩
    dsimp only
    omega
  · rintro ⟨h1, h2, h3⟩
    refine ⟨p.1 - row, by omega, ?_⟩
    cases p
    simp only [Prod.mk.injEq]
    omega

theorem mem_saveCoords_colOnly (row col : Nat) (cell : Cell) (cs : Nat)
    (hr : cell.attrs.lookup "rowspan" = none)
    (hc : cell.attrs.lookup "colspan" = some cs) (p : Nat × Nat) :
    p ∈ saveCoords row col cell ↔
      p.1 = row ∧ col ≤ p.2 ∧ p.2 < col + cs := by
  have hR : cell.hasAttr "rowspan" = false := by simp [Cell.hasAttr, hr]
  have hC : cell.hasAttr "colspan" = true := by simp [Cell.hasAttr, hc]
  have hcv : cell.attrNat "colspan" = cs := by simp [Cell.attrNat, hc]
  simp only [saveCoords, hR, hC, Bool.false_and, Bool.false_eq_true,
    if_false, if_true, List.mem_map, List.mem_range, hcv]
  constructor
  · rintro ⟨q, hq, rfl⟩
    dsimp only
    omega
  · rintro ⟨h1, h2, h3⟩
    refine ⟨p.2 - col, by omega, ?_⟩
    cases p
    simp only [Prod.mk.injEq]
    omega

theorem saveCoords_noAttrs (row col : Nat) (cell : Cell)
    (hr : cell.attrs.lookup "rowspan" = none)
    (hc : cell.attrs.lookup "colspan" = none) :
    saveCoords row col cell = [] := by
  have hR : cell.hasAttr "rowspan" = false := by simp [Cell.hasAttr, hr]
  have hC : cell.hasAttr "colspan" = false := by simp [Cell.hasAttr, hc]
  simp [saveCoords, hR, hC]

/-- When the cell content carries no noise markup (the normalizer leaves
it unchanged), every registered coordinate receives the same normalized
text. -/
theorem writeSpanCells_get?_of_pure (ks : List (Nat × Nat)) (m : SpanMap)
    (n : Node) (hn : (get_clean_text_from_soup n).2 = n) (p : Nat × Nat) :
    ((writeSpanCells ks m n).1).get? p =
      if p ∈ ks then some (get_clean_text_from_soup n).1 else m.get? p := by
  induction ks generalizing m with
  | nil => simp [writeSpanCells]
  | cons k ks ih =>
      simp only [writeSpanCells, hn, List.mem_cons]
      rw [ih, SpanMap.get?_insert]
      by_cases hks : p ∈ ks
      · simp [hks]
      · by_cases hk : p = k
        · simp [hks, hk]
        · have hk' : ¬ k = p := fun he => hk he.symm
          simp [hks, hk, hk']

/-- Every coordinate registered by `_save_row_col_span` lies weakly
below and to the right of the registering cell's origin. -/
theorem saveCoords_bound (row col : Nat) (cell : Cell) (p : Nat × Nat)
    (hp : p ∈ saveCoords row col cell) : row ≤ p.1 ∧ col ≤ p.2 := by
  unfold saveCoords at hp
  split at hp
  · simp only [List.mem_map] at hp
    obtain ⟨q, _, h⟩ := hp
    cases h
    exact ⟨Nat.le_add_right _ _, Nat.le_add_right _ _⟩
  · split at hp
    · simp only [List.mem_map] at hp
      obtain ⟨q, _, h⟩ := hp
      cases h
      exact ⟨Nat.le_add_right _ _, Nat.le_refl _⟩
    · split at hp
      · simp only [List.mem_map] at hp
        obtain ⟨q, _, h⟩ := hp
        cases h
        exact ⟨Nat.le_refl _, Nat.le_add_right _ _⟩
      · simp at hp

/-! ## Claim C1: the span-registration rectangle -/

/-- **C1.**  For a cell carrying both `rowspan = rs` and `colspan = cs`,
registering it at origin `(row, col)` writes into exactly the rectangle
`[row, row + cs) × [col, col + rs)` — `colspan` applied to the row
direction and `rowspan` to the column direction — including the origin;
when only one span attribute is present only that attribute's own axis
is extended while the other coordinate stays fixed; and (for cells whose
content the normalizer leaves untouched) each written coordinate holds
the cell's normalized text. -/
theorem C1_register_rectangle (row col : Nat) (cell : Cell) (m : SpanMap)
    (rs cs : Nat) :
    (cell.attrs.lookup "rowspan" = some rs →
     cell.attrs.lookup "colspan" = some cs →
     ∀ p : Nat × Nat,
       (p ∈ ((save_row_col_span row col cell m).1).keys ↔
         (row ≤ p.1 ∧ p.1 < row + cs ∧ col ≤ p.2 ∧ p.2 < col + rs) ∨
           p ∈ m.keys)) ∧
    (cell.attrs.lookup "rowspan" = some rs →
     cell.attrs.lookup "colspan" = none →
     ∀ p : Nat × Nat,
       (p ∈ ((save_row_col_span row col cell m).1).keys ↔
         (p.2 = col ∧ row ≤ p.1 ∧ p.1 < row + rs) ∨ p ∈ m.keys)) ∧
    (cell.attrs.lookup "rowspan" = none →
     cell.attrs.lookup "colspan" = some cs →
     ∀ p : Nat × Nat,
       (p ∈ ((save_row_col_span row col cell m).1).keys ↔
         (p.1 = row ∧ col ≤ p.2 ∧ p.2 < col + cs) ∨ p ∈ m.keys)) ∧
    ((get_clean_text_from_soup cell.content).2 = cell.content →
     ∀ p : Nat × Nat, p ∈ saveCoords row col cell →
       ((save_row_col_span row col cell m).1).get? p =
         some (get_clean_text_from_soup cell.content).1) := by
  refine ⟨fun hr hc p => ?_, fun hr hc p => ?_, fun hr hc p => ?_,
    fun hn p hp => ?_⟩
  · rw [save_row_col_span_mem_keys, mem_saveCoords_both row col cell rs cs hr hc]
  · rw [save_row_col_span_mem_keys, mem_saveCoords_rowOnly row col cell rs hr hc]
  · rw [save_row_col_span_mem_keys, mem_saveCoords_colOnly row col cell cs hr hc]
  · unfold save_row_col_span
    rw [writeSpanCells_get?_of_pure _ m cell.content hn p]
    simp [hp]

/-- Witness for C1: a `rowspan = 2, colspan = 2` cell registered at
`(0, 0)` covers `(1, 1)` (and, per the rectangle bound, exactly
`(0,0), (0,1), (1,0), (1,1)`). -/
theorem C1_register_rectangle_witness :
    ((1, 1) ∈
        ((save_row_col_span 0 0
            ⟨[("rowspan", 2), ("colspan", 2)], Node.txt "S"⟩ ∅).1).keys ↔
      (0 ≤ 1 ∧ 1 < 0 + 2 ∧ 0 ≤ 1 ∧ 1 < 0 + 2) ∨
        (1, 1) ∈ SpanMap.keys ∅) :=
  (C1_register_rectangle 0 0
    ⟨[("rowspan", 2), ("colspan", 2)], Node.txt "S"⟩ ∅ 2 2).1 rfl rfl (1, 1)

/-! ## Claim C2: the per-cell emit guard and offset advance -/

/-- The emit guard holds exactly when the coordinate is covered neither
by an earlier projection nor by the cell's own registration (the source
checks the dictionary *after* `_save_row_col_span` ran for this cell). -/
theorem emitsOwnText_iff (rowIdx colIdx : Nat) (cell : Cell) (m : SpanMap) :
    emitsOwnText rowIdx colIdx cell m = true ↔
      ((rowIdx, colIdx) ∉ saveCoords rowIdx colIdx cell ∧
        (rowIdx, colIdx) ∉ m.keys) := by
  unfold emitsOwnText
  rw [Option.isNone_iff_eq_none, ← Option.not_isSome_iff_eq_none]
  rw [show (((save_row_col_span rowIdx colIdx cell m).1).get?
        (rowIdx, colIdx)).isSome = true ↔
      ((rowIdx, colIdx) ∈ saveCoords rowIdx colIdx cell ∨
        ((m.get? (rowIdx, colIdx)).isSome = true)) from
    writeSpanCells_get? _ m cell.content (rowIdx, colIdx)]
  rw [SpanMap.isSome_get?_iff]
  tauto

/-- **C2 (amended).**  In the per-cell step the cell's own text is
emitted iff its coordinate is covered neither by an earlier cell's
projection nor by the cell's own just-registered span extent (a cell
carrying a positive span attribute covers its own origin and is
therefore never emitted directly — its text re-enters only through the
trailing `_load_row_col_span` query); and `col_off` advances by the
number of absorbed trailing projected cells exactly when the cell
carries no `rowspan`/`colspan` attribute. -/
theorem C2_emit_guard_and_offset (rowIdx colRaw : Nat) (cell : Cell)
    (st : GenState) :
    (cellStep rowIdx colRaw cell st).toYield =
      st.toYield ++
        (if (rowIdx, colRaw + st.colOff) ∉
              saveCoords rowIdx (colRaw + st.colOff) cell ∧
            (rowIdx, colRaw + st.colOff) ∉ st.spans.keys then
          [(get_clean_text_from_soup
              (save_row_col_span rowIdx (colRaw + st.colOff) cell
                st.spans).2).1]
        else []) ++
        load_row_col_span rowIdx (colRaw + st.colOff)
          (save_row_col_span rowIdx (colRaw + st.colOff) cell st.spans).1 ∧
    (cellStep rowIdx colRaw cell st).colOff =
      (if ¬ cell.hasAttr "colspan" = true ∧ ¬ cell.hasAttr "rowspan" = true
       then
        st.colOff +
          (load_row_col_span rowIdx (colRaw + st.colOff)
            (save_row_col_span rowIdx (colRaw + st.colOff) cell
              st.spans).1).length
       else st.colOff) := by
  constructor
  · unfold cellStep
    dsimp only
    by_cases he : emitsOwnText rowIdx (colRaw + st.colOff) cell st.spans
    · rw [if_pos he, if_pos ((emitsOwnText_iff _ _ _ _).mp he),
        List.append_assoc]
    · rw [if_neg he, if_neg
        (fun hp => he ((emitsOwnText_iff _ _ _ _).mpr hp))]
      simp
  · rfl

/-- Counterexample to C2 as stated: a `colspan = 2` cell at `(0, 0)`
over an empty dictionary.  No earlier cell projected onto `(0, 0)`, yet
the emit guard refuses (the coordinate is covered by the cell's own
registration) and the cell's text reaches the row only as the two
projected copies absorbed by the trailing load. -/
theorem C2_cex_own_span_suppresses_emit :
    (0, 0) ∉ SpanMap.keys (∅ : SpanMap) ∧
    emitsOwnText 0 0 ⟨[("colspan", 2)], Node.txt "T"⟩ ∅ = false ∧
    (cellStep 0 0 ⟨[("colspan", 2)], Node.txt "T"⟩
        ⟨∅, 0, []⟩).toYield = ["T", "T"] := by
  refine ⟨List.not_mem_nil _, by decide, by decide⟩

/-! ## Claim C4: the contiguous-run query -/

theorem mem_insertByCol (p q : Nat × Nat) (l : List (Nat × Nat)) :
    q ∈ insertByCol p l ↔ q = p ∨ q ∈ l := by
  induction l with
  | nil => simp [insertByCol]
  | cons a l ih =>
      simp only [insertByCol]
      by_cases h : p.2 ≤ a.2
      · simp [h]
      · simp only [if_neg h, List.mem_cons, ih]
        tauto

theorem mem_sortByCol (p : Nat × Nat) (l : List (Nat × Nat)) :
    p ∈ sortByCol l ↔ p ∈ l := by
  induction l with
  | nil => simp [sortByCol]
  | cons a l ih =>
      simp only [sortByCol, mem_insertByCol, List.mem_cons, ih]

theorem pairwise_insertByCol (p : Nat × Nat) (l : List (Nat × Nat))
    (hl : l.Pairwise fun a b => a.2 ≤ b.2) :
    (insertByCol p l).Pairwise fun a b => a.2 ≤ b.2 := by
  induction l with
  | nil => simp [insertByCol]
  | cons a l ih =>
      rw [List.pairwise_cons] at hl
      simp only [insertByCol]
      by_cases h : p.2 ≤ a.2
      · rw [if_pos h, List.pairwise_cons]
        refine ⟨?_, List.pairwise_cons.mpr hl⟩
        intro x hx
        rcases List.mem_cons.mp hx with rfl | hx
        · exact h
        · exact Nat.le_trans h (hl.1 x hx)
      · rw [if_neg h, List.pairwise_cons]
        refine ⟨?_, ih hl.2⟩
        intro x hx
        rcases (mem_insertByCol p x l).mp hx with rfl | hx
        · exact Nat.le_of_lt (Nat.lt_of_not_le h)
        · exact hl.1 x hx

theorem pairwise_sortByCol (l : List (Nat × Nat)) :
    (sortByCol l).Pairwise fun a b => a.2 ≤ b.2 := by
  induction l with
  | nil => simp [sortByCol]
  | cons a l ih => exact pairwise_insertByCol a (sortByCol l) ih

/-- A `takeWhile` specification: the kept prefix satisfies the predicate,
is a prefix, and the first dropped element (if any) falsifies it. -/
theorem takeWhile_spec {α : Type} (p : α → Bool) (l : List α) :
    (∀ x ∈ l.takeWhile p, p x = true) ∧
    (l.takeWhile p <+: l) ∧
    (∀ a, l.get? (l.takeWhile p).length = some a → p a = false) := by
  induction l with
  | nil => simp
  | cons a l ih =>
      by_cases ha : p a
      · simp only [List.takeWhile_cons, ha, if_true]
        refine ⟨?_, ?_, ?_⟩
        · intro x hx
          rcases List.mem_cons.mp hx with rfl | hx
          · exact ha
          · exact ih.1 x hx
        · exact (List.prefix_cons_inj a).mpr ih.2.1
        · intro b hb
          rw [List.length_cons, List.get?_cons_succ] at hb
          exact ih.2.2 b hb
      · have ha0 : p a = false := by revert ha; cases p a <;> simp
        simp only [List.takeWhile_cons, ha0, Bool.false_eq_true, if_false]
        refine ⟨by simp, List.nil_prefix, ?_⟩
        intro b hb
        rw [List.length_nil, List.get?_cons_zero] at hb
        cases hb
        exact ha0

/-- `get?` through `enumFrom`. -/
theorem get?_enumFrom {α : Type} (l : List α) (n i : Nat) :
    (l.enumFrom n).get? i = (l.get? i).map fun v => (n + i, v) := by
  induction l generalizing n i with
  | nil => simp
  | cons a l ih =>
      cases i with
      | zero => simp [List.enumFrom]
      | succ i =>
          simp only [List.enumFrom, List.get?_cons_succ, ih (n + 1) i]
          have he : n + 1 + i = n + (i + 1) := by omega
          rw [he]

/-- `get?` through `enum`. -/
theorem get?_enum {α : Type} (l : List α) (i : Nat) :
    l.enum.get? i = (l.get? i).map fun v => (i, v) := by
  have := get?_enumFrom l 0 i
  simpa [List.enum] using this

/-- Strict pairwise order read through `get?`. -/
theorem pairwise_lt_get? {l : List Nat} (h : l.Pairwise (· < ·))
    {i j a b : Nat} (hij : i < j) (ha : l.get? i = some a)
    (hb : l.get? j = some b) : a < b := by
  obtain ⟨hi, ha'⟩ := List.get?_eq_some.mp ha
  obtain ⟨hj, hb'⟩ := List.get?_eq_some.mp hb
  have := List.pairwise_iff_get.mp h ⟨i, hi⟩ ⟨j, hj⟩ hij
  rw [ha', hb'] at this
  exact this

theorem perm_insertByCol (p : Nat × Nat) (l : List (Nat × Nat)) :
    List.Perm (insertByCol p l) (p :: l) := by
  induction l with
  | nil => exact List.Perm.refl _
  | cons a l ih =>
      simp only [insertByCol]
      by_cases h : p.2 ≤ a.2
      · rw [if_pos h]
      · rw [if_neg h]
        exact (ih.cons a).trans (List.Perm.swap p a l)

theorem perm_sortByCol (l : List (Nat × Nat)) : List.Perm (sortByCol l) l := by
  induction l with
  | nil => exact List.Perm.refl _
  | cons a l ih => exact (perm_insertByCol a (sortByCol l)).trans (ih.cons a)

/-- Membership in the filtered, sorted key list built by
`_load_row_col_span`. -/
theorem sortedCells_mem (row col : Nat) (m : SpanMap) (p : Nat × Nat) :
    (p ∈ sortByCol ((SpanMap.keys m).filter
        fun rc => rc.1 = row && col ≤ rc.2) ↔
      p ∈ m.keys ∧ p.1 = row ∧ col ≤ p.2) := by
  rw [mem_sortByCol, List.mem_filter]
  simp [and_assoc]

/-- With duplicate-free keys, the column list scanned by
`_load_row_col_span` is strictly increasing. -/
theorem loadCols_pairwise_lt (row col : Nat) (m : SpanMap)
    (hnd : m.keys.Nodup) :
    ((sortByCol ((SpanMap.keys m).filter
        fun rc => rc.1 = row && col ≤ rc.2)).map Prod.snd).Pairwise
      (· < ·) := by
  have hle := pairwise_sortByCol
    ((SpanMap.keys m).filter fun rc => rc.1 = row && col ≤ rc.2)
  have hnd2 : (sortByCol ((SpanMap.keys m).filter
      fun rc => rc.1 = row && col ≤ rc.2)).Nodup :=
    (perm_sortByCol _).nodup_iff.mpr (hnd.filter _)
  rw [List.pairwise_map]
  refine ((hle.and hnd2).imp_of_mem ?_)
  intro a b ha hb hab
  have ha' := (sortedCells_mem row col m a).mp ha
  have hb' := (sortedCells_mem row col m b).mp hb
  rcases hab with ⟨h1, h2⟩
  rcases Nat.lt_or_ge a.2 b.2 with h | h
  · exact h
  · exfalso
    have : a.2 = b.2 := Nat.le_antisymm h1 h
    exact h2 (Prod.ext (ha'.2.1.trans hb'.2.1.symm) this)

/-- The first `groupby` group over a strictly increasing column list:
it is non-empty, its `i`-th element is `c0 + i` (likewise the `i`-th
scanned column), and the column one past the group is absent from the
whole list — the run stops at the first gap. -/
theorem firstGroup_spec (c0 : Nat) (rest : List Nat)
    (hlt : (c0 :: rest).Pairwise (· < ·)) :
    0 < (firstGroup (c0 :: rest)).length ∧
    (firstGroup (c0 :: rest)).length ≤ (c0 :: rest).length ∧
    (∀ i, i < (firstGroup (c0 :: rest)).length →
      (firstGroup (c0 :: rest)).get? i = some (c0 + i) ∧
      (c0 :: rest).get? i = some (c0 + i)) ∧
    c0 + (firstGroup (c0 :: rest)).length ∉ (c0 :: rest) := by
  obtain ⟨h1, h2, h3⟩ := takeWhile_spec
    (fun ic : Nat × Nat => decide ((ic.2 : Int) - ic.1 = (c0 : Int)))
    ((c0 :: rest).enum)
  have hfg : firstGroup (c0 :: rest) =
      ((c0 :: rest).enum.takeWhile
        (fun ic => decide ((ic.2 : Int) - ic.1 = (c0 : Int)))).map
        Prod.snd := rfl
  have hfglen : (firstGroup (c0 :: rest)).length =
      ((c0 :: rest).enum.takeWhile
        (fun ic => decide ((ic.2 : Int) - ic.1 = (c0 : Int)))).length := by
    rw [hfg, List.length_map]
  have hlen : ((c0 :: rest).enum).length = (c0 :: rest).length :=
    List.enum_length
  -- the value scanned at a kept index is exactly c0 + i
  have hval : ∀ i, i < ((c0 :: rest).enum.takeWhile
      (fun ic => decide ((ic.2 : Int) - ic.1 = (c0 : Int)))).length →
      (c0 :: rest).get? i = some (c0 + i) := by
    intro i hi
    obtain ⟨t, ht⟩ := h2
    have htw : ((c0 :: rest).enum.takeWhile
        (fun ic => decide ((ic.2 : Int) - ic.1 = (c0 : Int)))).get? i =
        ((c0 :: rest).enum).get? i := by
      conv_rhs => rw [← ht]
      rw [List.get?_append hi]
    have hxval := List.get?_eq_get hi
    set x := ((c0 :: rest).enum.takeWhile
      (fun ic => decide ((ic.2 : Int) - ic.1 = (c0 : Int)))).get
      ⟨i, hi⟩ with hx
    have hpx : (decide ((x.2 : Int) - x.1 = (c0 : Int))) = true :=
      h1 x (List.get_mem _ _ _)
    have henum : ((c0 :: rest).enum).get? i = some x := by
      rw [← htw, hxval]
    rw [get?_enum] at henum
    cases hcr : (c0 :: rest).get? i with
    | none => rw [hcr] at henum; cases henum
    | some v =>
        rw [hcr] at henum
        have hxv : x = (i, v) := (Option.some.inj henum).symm
        rw [hxv] at hpx
        simp only [decide_eq_true_eq] at hpx
        have hv : v = c0 + i := by omega
        rw [hv]
  have hk1 : 0 < ((c0 :: rest).enum.takeWhile
      (fun ic => decide ((ic.2 : Int) - ic.1 = (c0 : Int)))).length := by
    by_contra h0
    have h0' : ((c0 :: rest).enum.takeWhile
        (fun ic => decide ((ic.2 : Int) - ic.1 = (c0 : Int)))).length = 0 := by
      omega
    have hg : ((c0 :: rest).enum).get? ((c0 :: rest).enum.takeWhile
        (fun ic => decide ((ic.2 : Int) - ic.1 = (c0 : Int)))).length =
        some (0, c0) := by
      rw [h0', get?_enum]
      rfl
    have := h3 (0, c0) hg
    simp at this
  have hkle : ((c0 :: rest).enum.takeWhile
      (fun ic => decide ((ic.2 : Int) - ic.1 = (c0 : Int)))).length ≤
      (c0 :: rest).length := by
    rw [← hlen]
    exact h2.length_le
  refine ⟨by rw [hfglen]; exact hk1, by rw [hfglen]; exact hkle, ?_, ?_⟩
  · intro i hi
    have hi' : i < ((c0 :: rest).enum.takeWhile
        (fun ic => decide ((ic.2 : Int) - ic.1 = (c0 : Int)))).length := by
      rw [← hfglen]
      exact hi
    refine ⟨?_, hval i hi'⟩
    -- read the group element through map and the prefix
    obtain ⟨t, ht⟩ := h2
    have htw : ((c0 :: rest).enum.takeWhile
        (fun ic => decide ((ic.2 : Int) - ic.1 = (c0 : Int)))).get? i =
        ((c0 :: rest).enum).get? i := by
      conv_rhs => rw [← ht]
      rw [List.get?_append hi']
    rw [hfg, List.get?_map, htw, get?_enum, hval i hi']
    rfl
  · intro hmem
    obtain ⟨j, hj⟩ := List.mem_iff_get?.mp hmem
    rcases Nat.lt_trichotomy j ((c0 :: rest).enum.takeWhile
        (fun ic => decide ((ic.2 : Int) - ic.1 = (c0 : Int)))).length with
      hc | hc | hc
    · have := hval j hc
      rw [hj] at this
      have := Option.some.inj this
      rw [hfglen] at this
      omega
    · have hg : ((c0 :: rest).enum).get? j = some (j, c0 +
        (firstGroup (c0 :: rest)).length) := by
        rw [get?_enum, hj]
        rfl
      rw [hc, hfglen] at hg
      have := h3 _ hg
      simp only [decide_eq_false_iff_not] at this
      rw [← hfglen] at hc
      push_cast at this
      omega
    · -- an index strictly between the run and j would have to hold a value
      -- in the emptied gap
      have hjlen : j < (c0 :: rest).length := by
        have := List.get?_eq_some.mp hj
        obtain ⟨hh, _⟩ := this
        exact hh
      have hklen : ((c0 :: rest).enum.takeWhile
          (fun ic => decide ((ic.2 : Int) - ic.1 = (c0 : Int)))).length <
          (c0 :: rest).length := by omega
      obtain ⟨y, hy⟩ : ∃ y, (c0 :: rest).get? ((c0 :: rest).enum.takeWhile
          (fun ic => decide ((ic.2 : Int) - ic.1 = (c0 : Int)))).length =
          some y := by
        rw [List.get?_eq_get hklen]
        exact ⟨_, rfl⟩
      have hvkm1 := hval (((c0 :: rest).enum.takeWhile
        (fun ic => decide ((ic.2 : Int) - ic.1 = (c0 : Int)))).length - 1)
        (by omega)
      have hlow := pairwise_lt_get? hlt (by omega : ((c0 :: rest).enum.takeWhile
        (fun ic => decide ((ic.2 : Int) - ic.1 = (c0 : Int)))).length - 1 <
        ((c0 :: rest).enum.takeWhile
          (fun ic => decide ((ic.2 : Int) - ic.1 = (c0 : Int)))).length)
        hvkm1 hy
      have hhigh := pairwise_lt_get? hlt hc hy hj
      rw [hfglen] at hhigh
      omega

theorem load_eq_nil_of_sorted (row col : Nat) (m : SpanMap)
    (hs : sortByCol ((SpanMap.keys m).filter
      fun rc => rc.1 = row && col ≤ rc.2) = []) :
    load_row_col_span row col m = [] := by
  unfold load_row_col_span
  rw [hs]

theorem load_eq_of_sorted (row col : Nat) (m : SpanMap) (first : Nat × Nat)
    (rest : List (Nat × Nat))
    (hs : sortByCol ((SpanMap.keys m).filter
      fun rc => rc.1 = row && col ≤ rc.2) = first :: rest) :
    load_row_col_span row col m =
      if first.2 ≠ col ∧ first.2 ≠ col + 1 then []
      else
        (firstGroup ((first :: rest).map Prod.snd)).map
          fun c => (m.get? (row, c)).getD "" := by
  unfold load_row_col_span
  rw [hs]

/-- **C4.**  `_load_row_col_span(row, col, m)` (a pure read: it takes the
dictionary and returns only a list, leaving `m` untouched) returns the
ordered projected values of `row` forming a contiguous column run whose
first column is `col` or `col + 1` (the latter only when `col` itself is
unprojected), stopping at the first gap; it returns the empty sequence
exactly when no run starts adjacently. -/
theorem C4_take_contiguous_run (row col : Nat) (m : SpanMap)
    (hnd : (SpanMap.keys m).Nodup) :
    (m.get? (row, col) = none ∧ m.get? (row, col + 1) = none →
      load_row_col_span row col m = []) ∧
    ((m.get? (row, col)).isSome ∨ (m.get? (row, col + 1)).isSome →
      load_row_col_span row col m ≠ []) ∧
    (load_row_col_span row col m ≠ [] →
      ∃ c0, (c0 = col ∨ c0 = col + 1) ∧
        (c0 = col + 1 → m.get? (row, col) = none) ∧
        (∀ i, i < (load_row_col_span row col m).length →
          ∃ v, (load_row_col_span row col m).get? i = some v ∧
            m.get? (row, c0 + i) = some v) ∧
        m.get? (row, c0 + (load_row_col_span row col m).length) = none) := by
  have hkeymem : ∀ c : Nat, (m.get? (row, c)).isSome ↔ (row, c) ∈ m.keys :=
    fun c => SpanMap.isSome_get?_iff m (row, c)
  cases hs : sortByCol ((SpanMap.keys m).filter
      fun rc => rc.1 = row && col ≤ rc.2) with
  | nil =>
      have hload := load_eq_nil_of_sorted row col m hs
      have hnomem : ∀ c : Nat, col ≤ c → ¬ (m.get? (row, c)).isSome := by
        intro c hc hsome
        have hmem : (row, c) ∈ sortByCol ((SpanMap.keys m).filter
            fun rc => rc.1 = row && col ≤ rc.2) :=
          (sortedCells_mem row col m (row, c)).mpr
            ⟨(hkeymem c).mp hsome, rfl, hc⟩
        rw [hs] at hmem
        cases hmem
      refine ⟨fun _ => hload, ?_, fun h => absurd hload h⟩
      rintro (h | h)
      · exact absurd h (hnomem col (Nat.le_refl col))
      · exact absurd h (hnomem (col + 1) (Nat.le_succ col))
  | cons first rest =>
      have hfirst : first ∈ m.keys ∧ first.1 = row ∧ col ≤ first.2 := by
        refine (sortedCells_mem row col m first).mp ?_
        rw [hs]
        exact List.mem_cons_self _ _
      have hmin : ∀ p, p ∈ first :: rest → first.2 ≤ p.2 := by
        have hp := pairwise_sortByCol ((SpanMap.keys m).filter
          fun rc => rc.1 = row && col ≤ rc.2)
        rw [hs, List.pairwise_cons] at hp
        intro p hp'
        rcases List.mem_cons.mp hp' with rfl | hp'
        · exact Nat.le_refl _
        · exact hp.1 p hp'
      by_cases hcond : first.2 ≠ col ∧ first.2 ≠ col + 1
      · have hload := load_eq_of_sorted row col m first rest hs
        rw [if_pos hcond] at hload
        have hn2 : ¬ ((m.get? (row, col)).isSome ∨
            (m.get? (row, col + 1)).isSome) := by
          rintro (h | h)
          · have hmem : (row, col) ∈ first :: rest := by
              rw [← hs]
              exact (sortedCells_mem row col m (row, col)).mpr
                ⟨(hkeymem col).mp h, rfl, Nat.le_refl col⟩
            have := hmin _ hmem
            exact hcond.1 (Nat.le_antisymm this hfirst.2.2)
          · have hmem : (row, col + 1) ∈ first :: rest := by
              rw [← hs]
              exact (sortedCells_mem row col m (row, col + 1)).mpr
                ⟨(hkeymem (col + 1)).mp h, rfl, Nat.le_succ col⟩
            have h1 := hmin _ hmem
            have h2 := hfirst.2.2
            rcases Nat.lt_or_ge first.2 (col + 1) with h3 | h3
            · exact hcond.1 (by omega)
            · exact hcond.2 (by omega)
        exact ⟨fun _ => hload, fun h => absurd h hn2, fun h => absurd hload h⟩
      · have hc0 : first.2 = col ∨ first.2 = col + 1 := by tauto
        have hload := load_eq_of_sorted row col m first rest hs
        rw [if_neg hcond] at hload
        have hltcols : (first.2 :: rest.map Prod.snd).Pairwise (· < ·) := by
          have := loadCols_pairwise_lt row col m hnd
          rw [hs, List.map_cons] at this
          exact this
        obtain ⟨hpos, hle, hvals, hgap⟩ :=
          firstGroup_spec first.2 (rest.map Prod.snd) hltcols
        have hcolmem : ∀ c : Nat, c ∈ first.2 :: rest.map Prod.snd ↔
            ((row, c) ∈ m.keys ∧ col ≤ c) := by
          intro c
          rw [← List.map_cons, ← hs]
          constructor
          · intro hc
            obtain ⟨p, hp, hpc⟩ := List.mem_map.mp hc
            obtain ⟨hp1, hp2, hp3⟩ := (sortedCells_mem row col m p).mp hp
            have hpe : p = (row, c) := by
              cases p
              cases hpc
              cases hp2
              rfl
            rw [hpe] at hp1
            exact ⟨hp1, by rw [← hpc]; exact hp3⟩
          · intro hc
            refine List.mem_map.mpr ⟨(row, c), ?_, rfl⟩
            exact (sortedCells_mem row col m (row, c)).mpr ⟨hc.1, rfl, hc.2⟩
        have hlen : (load_row_col_span row col m).length =
            (firstGroup (first.2 :: rest.map Prod.snd)).length := by
          rw [hload, List.map_cons, List.length_map]
        have hne : load_row_col_span row col m ≠ [] := by
          intro hcontra
          rw [hcontra] at hlen
          simp only [List.length_nil] at hlen
          omega
        refine ⟨?_, fun _ => hne, fun _ => ?_⟩
        · intro hnone
          exfalso
          have hfe : first = (row, first.2) := by
            cases first
            cases hfirst.2.1
            rfl
          have hfs : (m.get? (row, first.2)).isSome := by
            rw [hkeymem]
            rw [← hfe]
            exact hfirst.1
          rcases hc0 with hh | hh <;> rw [hh] at hfs
          · rw [hnone.1] at hfs
            cases hfs
          · rw [hnone.2] at hfs
            cases hfs
        refine ⟨first.2, hc0, ?_, ?_, ?_⟩
        · intro hc1
          cases hcr : m.get? (row, col) with
          | none => rfl
          | some v =>
              exfalso
              have hmemc : col ∈ first.2 :: rest.map Prod.snd :=
                (hcolmem col).mpr
                  ⟨(hkeymem col).mp (by rw [hcr]; rfl), Nat.le_refl col⟩
              rw [List.pairwise_cons] at hltcols
              rcases List.mem_cons.mp hmemc with hh | hh
              · omega
              · have := hltcols.1 col hh
                omega
        · intro i hi
          rw [hlen] at hi
          obtain ⟨hfgi, hcolsi⟩ := hvals i hi
          have hmemi : first.2 + i ∈ first.2 :: rest.map Prod.snd :=
            List.get?_mem hcolsi
          have hkeyi : (row, first.2 + i) ∈ m.keys :=
            ((hcolmem (first.2 + i)).mp hmemi).1
          have hsomei : (m.get? (row, first.2 + i)).isSome :=
            (hkeymem (first.2 + i)).mpr hkeyi
          obtain ⟨v, hv⟩ := Option.isSome_iff_exists.mp hsomei
          refine ⟨v, ?_, hv⟩
          rw [hload, List.map_cons, List.get?_map, hfgi]
          show some ((m.get? (row, first.2 + i)).getD "") = some v
          rw [hv]
          rfl
        · cases hcr : m.get? (row, first.2 +
            (load_row_col_span row col m).length) with
          | none => rfl
          | some v =>
              exfalso
              refine hgap ?_
              rw [← hlen]
              exact ((hcolmem _).mpr
                ⟨(hkeymem _).mp (by rw [hcr]; rfl),
                  Nat.le_trans hfirst.2.2 (Nat.le_add_right _ _)⟩)

/-- Witness for C4: over a concrete dictionary and a column with no
adjacent projected run, the query returns the empty list. -/
theorem C4_take_contiguous_run_witness :
    load_row_col_span 0 5
      [((0, 1), "a"), ((0, 2), "b"), ((0, 4), "c"), ((1, 1), "z")] = [] :=
  (C4_take_contiguous_run 0 5
    [((0, 1), "a"), ((0, 2), "b"), ((0, 4), "c"), ((1, 1), "z")]
    (by decide)).1 (by decide)

/-! ## Claim C7: scoped option overrides and error paths -/

/-- Counterexample to C7 as stated: when the body raises, the lines
after the `yield` in `WikiTableOptions.updated` are skipped (no
`try/finally` around the yield), so the override of `tab_num` persists
in the engine's configuration instead of being reverted. -/
theorem C7_cex_overrides_persist_on_error :
    ((updatedRun defaultOptions { tab_num := some 5 }
        (fun o => ((Except.error "boom" : Except String Unit), o))).2).tab_num
      = 5 ∧
    defaultOptions.tab_num = 0 :=
  ⟨rfl, rfl⟩

/-- **C7 (amended).**  Per-call overrides are reverted on *normal*
completion — whatever the body did to the options, the saved copy is
restored; but when the invocation terminates by raising, the code after
the `yield` never runs and the overridden options persist. -/
theorem C7_overrides_reverted_on_ok {α : Type} (o : Options)
    (kw : Overrides) (body : Options → Except String α × Options) (a : α)
    (after : Options)
    (hok : body (applyOverrides o kw) = (.ok a, after)) :
    (updatedRun o kw body).2 = o := by
  unfold updatedRun
  rw [hok]

/-- Witness for C7 (amended): a normally completing body leaves the
default options untouched. -/
theorem C7_overrides_reverted_on_ok_witness :
    (updatedRun defaultOptions { tab_num := some 5 }
      (fun o => ((Except.ok 0 : Except String Nat), o))).2 = defaultOptions :=
  C7_overrides_reverted_on_ok defaultOptions { tab_num := some 5 }
    (fun o => ((Except.ok 0 : Except String Nat), o)) 0
    (applyOverrides defaultOptions { tab_num := some 5 }) rfl

/-! ## Claim C9: the `None` link-scope sentinel -/

/-- **C9** is a code bug: the class docstring promises that a `None`
scope means "look at all columns (rows)", and `_want_links` even
carries an `if index_list is None: return True` branch — but
`col_care`/`row_care` require the scope to be non-`None` *and*
non-empty, so a `None` scope is classified as "not configured" and the
function returns `False` (follows no link) instead of `True`.  The
theorem evaluates the embedded code at the failing inputs. -/
theorem C9_none_scope_follows_nothing :
    want_links 0 0 { defaultOptions with col_ref := none } =
      Except.ok false ∧
    want_links 3 7 { defaultOptions with col_ref := none } =
      Except.ok false ∧
    want_links 0 0 { defaultOptions with row_ref := none } =
      Except.ok false ∧
    want_links 0 2 { defaultOptions with col_ref := some [1, 2] } =
      Except.ok true ∧
    want_links 0 0 { defaultOptions with col_ref := some [1, 2] } =
      Except.ok false :=
  ⟨rfl, rfl, rfl, rfl, rfl⟩

/-! ## Claim C10: the Text Normalizer mutates the shared tree -/

/-- Convenience constructor for children lists. -/
def nodesOf : List Node → NodeList
  | [] => .nil
  | n :: ns => .cons n (nodesOf ns)

/-- A cell with two `<sup>` descendants around plain text. -/
def noisyCell : Node :=
  Node.elem "td" []
    (nodesOf [Node.txt "x", Node.elem "sup" [] (nodesOf [Node.txt "a"]),
      Node.elem "sup" [] (nodesOf [Node.txt "b"]), Node.txt "y"])

/-- **C10.**  The normalizer is not a pure read: on a cell with two
`<sup>` descendants it permanently detaches exactly the first one (the
returned tree retains only the second), so the extracted text keeps the
second descendant's text, and running the normalizer again over the
already-mutated tree observes different text. -/
theorem C10_normalizer_mutates_cell :
    (get_clean_text_from_soup noisyCell).1 = "xby" ∧
    (get_clean_text_from_soup noisyCell).2 =
      Node.elem "td" []
        (nodesOf [Node.txt "x", Node.elem "sup" [] (nodesOf [Node.txt "b"]),
          Node.txt "y"]) ∧
    (get_clean_text_from_soup
      ((get_clean_text_from_soup noisyCell).2)).1 = "xy" ∧
    ("xby" : String) ≠ "xy" :=
  ⟨by decide, rfl, by decide, by decide⟩

/-! ## Claim C6: ordering of the conflict error and page fetches -/

/-- Counterexample to C6 as stated: with both link scopes non-empty the
root page fetch (`requests.get(options.url)` at the top of
`pandas_from_url`) happens first, and the conflicting-link-scope error
is raised only later, while the body generator is being consumed — so
the error is *not* raised before any I/O. -/
theorem C6_cex_fetch_precedes_error :
    pandasFromUrlTrace (fun _ _ _ => [])
      { defaultOptions with
          url := some "u", row_ref := some [0], col_ref := some [0] }
      [[⟨[], Node.txt "x"⟩]] =
      [Event.fetch "u", Event.confError] ∧
    (pandasFromUrlTrace (fun _ _ _ => [])
      { defaultOptions with
          url := some "u", row_ref := some [0], col_ref := some [0] }
      [[⟨[], Node.txt "x"⟩]]).head? = some (Event.fetch "u") := by
  refine ⟨by decide, by decide⟩

/-- With both link scopes non-empty, `_want_links` raises on every
coordinate. -/
theorem want_links_error_of_both (o : Options) (rl cl : List Nat)
    (hrl : o.row_ref = some rl) (hrlne : rl ≠ [])
    (hcl : o.col_ref = some cl) (hclne : cl ≠ []) (row col : Nat) :
    want_links row col o =
      Except.error
        "Cannot follow links across both rows and cols simultaneously" := by
  have hrc : o.row_ref ≠ none ∧ o.row_ref ≠ some [] := by
    rw [hrl]
    exact ⟨by simp, by simpa using hrlne⟩
  have hcc : o.col_ref ≠ none ∧ o.col_ref ≠ some [] := by
    rw [hcl]
    exact ⟨by simp, by simpa using hclne⟩
  unfold want_links
  rw [if_neg (by tauto), if_pos ⟨hcc, hrc⟩]

theorem cellsFold_error_of_both (oracle : LinkOracle) (o : Options)
    (rl cl : List Nat)
    (hrl : o.row_ref = some rl) (hrlne : rl ≠ [])
    (hcl : o.col_ref = some cl) (hclne : cl ≠ [])
    (rowIdx colRaw : Nat) (cell : Cell) (rest : List Cell) (st : GenState)
    (linked : List String) :
    cellsFold oracle o rowIdx colRaw (cell :: rest) st linked =
      Except.error
        "Cannot follow links across both rows and cols simultaneously" := by
  have hhl : handle_links oracle rowIdx (colRaw + st.colOff) cell o =
      Except.error
        "Cannot follow links across both rows and cols simultaneously" := by
    unfold handle_links
    rw [want_links_error_of_both o rl cl hrl hrlne hcl hclne]
    rfl
  unfold cellsFold
  rw [hhl]
  rfl

theorem rowStep_ok_of_drop_nil (oracle : LinkOracle) (o : Options)
    (rowIdx : Nat) (cells : List Cell) (m : SpanMap)
    (hd : cells.drop (if o.row_th then 1 else 0) = []) :
    rowStep oracle o rowIdx cells m =
      Except.ok (load_row_col_span rowIdx 0 m ++ [], m) := by
  unfold rowStep
  rw [hd]
  rfl

theorem rowStep_error_of_both (oracle : LinkOracle) (o : Options)
    (rl cl : List Nat)
    (hrl : o.row_ref = some rl) (hrlne : rl ≠ [])
    (hcl : o.col_ref = some cl) (hclne : cl ≠ [])
    (rowIdx : Nat) (cells : List Cell) (m : SpanMap)
    (hd : cells.drop (if o.row_th then 1 else 0) ≠ []) :
    rowStep oracle o rowIdx cells m =
      Except.error
        "Cannot follow links across both rows and cols simultaneously" := by
  unfold rowStep
  cases hds : cells.drop (if o.row_th then 1 else 0) with
  | nil => exact absurd hds hd
  | cons c cs =>
      rw [cellsFold_error_of_both oracle o rl cl hrl hrlne hcl hclne]
      rfl

theorem bodyGo_error_of_both (oracle : LinkOracle) (o : Options)
    (rl cl : List Nat)
    (hrl : o.row_ref = some rl) (hrlne : rl ≠ [])
    (hcl : o.col_ref = some cl) (hclne : cl ≠ [])
    (rows : List (List Cell)) :
    ∀ (rowIdx : Nat) (m : SpanMap),
      (∃ r ∈ rows, r.drop (if o.row_th then 1 else 0) ≠ []) →
      bodyGo oracle o rowIdx m rows =
        Except.error
          "Cannot follow links across both rows and cols simultaneously" := by
  induction rows with
  | nil =>
      intro rowIdx m h
      obtain ⟨r, hr, _⟩ := h
      cases hr
  | cons row rest ih =>
      intro rowIdx m h
      by_cases hd : row.drop (if o.row_th then 1 else 0) = []
      · have hok := rowStep_ok_of_drop_nil oracle o rowIdx row m hd
        obtain ⟨r, hr, hne⟩ := h
        rcases List.mem_cons.mp hr with rfl | hr2
        · exact absurd hd hne
        · have hrec := ih (rowIdx + 1) m ⟨r, hr2, hne⟩
          unfold bodyGo
          rw [hok]
          show bodyGo oracle o (rowIdx + 1) m rest >>= _ = _
          rw [hrec]
          rfl
      · unfold bodyGo
        rw [rowStep_error_of_both oracle o rl cl hrl hrlne hcl hclne
          rowIdx row m hd]
        rfl

/-- **C6 (amended).**  With both link scopes non-empty the
conflicting-link-scope error is certainly raised — but only while the
body of the already-fetched page is generated: the root page fetch
precedes it, and no nested link fetch ever happens (`_want_links`
raises before `_handle_links` touches the network).  The trace is
"fetch the root page, then fail". -/
theorem C6_conflict_error_after_root_fetch (oracle : LinkOracle)
    (o : Options) (table : List (List Cell)) (rl cl : List Nat) (u : String)
    (hrl : o.row_ref = some rl) (hrlne : rl ≠ [])
    (hcl : o.col_ref = some cl) (hclne : cl ≠ [])
    (hu : o.url = some u)
    (hrow : ∃ r ∈ table.drop (if o.col_th then 1 else 0),
      r.drop (if o.row_th then 1 else 0) ≠ []) :
    generate_body oracle table o =
      Except.error
        "Cannot follow links across both rows and cols simultaneously" ∧
    pandasFromUrlTrace oracle o table =
      [Event.fetch u, Event.confError] := by
  have hbody := bodyGo_error_of_both oracle o rl cl hrl hrlne hcl hclne
    (table.drop (if o.col_th then 1 else 0)) 0 ∅ hrow
  have hgen : generate_body oracle table o =
      Except.error
        "Cannot follow links across both rows and cols simultaneously" := by
    unfold generate_body
    exact hbody
  refine ⟨hgen, ?_⟩
  unfold pandasFromUrlTrace
  rw [hu, hgen]
  rfl

/-- Witness for C6 (amended): a concrete conflicting configuration over
a one-cell table. -/
theorem C6_conflict_error_after_root_fetch_witness :
    generate_body (fun _ _ _ => []) [[⟨[], Node.txt "x"⟩]]
      { defaultOptions with
          url := some "u", row_ref := some [0], col_ref := some [0] } =
      Except.error
        "Cannot follow links across both rows and cols simultaneously" ∧
    pandasFromUrlTrace (fun _ _ _ => [])
      { defaultOptions with
          url := some "u", row_ref := some [0], col_ref := some [0] }
      [[⟨[], Node.txt "x"⟩]] =
      [Event.fetch "u", Event.confError] :=
  C6_conflict_error_after_root_fetch (fun _ _ _ => [])
    { defaultOptions with
        url := some "u", row_ref := some [0], col_ref := some [0] }
    [[⟨[], Node.txt "x"⟩]] [0] [0] "u" rfl (by intro h; cases h) rfl
    (by intro h; cases h) rfl
    ⟨[⟨[], Node.txt "x"⟩], by exact List.Mem.head _, by intro h; cases h⟩

/-! ## Claim C8: regex extraction order, truncation, offsets -/

theorem numCols_ge (g : List (List String)) (row : List String)
    (hr : row ∈ g) : row.length ≤ numCols g := by
  induction g with
  | nil => cases hr
  | cons r rs ih =>
      rcases List.mem_cons.mp hr with rfl | hr2
      · exact Nat.le_max_left _ _
      · exact Nat.le_trans (ih hr2) (Nat.le_max_right _ _)

theorem gridLookup_natCast (g : List (List String)) (r c : Nat) :
    gridLookup g (r : Int) (c : Int) =
      (g.get? r).bind fun row => row.get? c := by
  unfold gridLookup
  rw [if_neg (by omega)]
  rw [Int.toNat_natCast, Int.toNat_natCast]

/-- The shape of one entry of the per-column scan. -/
theorem matchCell_shape (mt : Matcher) (g : List (List String))
    (pat : String) (c r : Nat) (x : Nat × Nat)
    (h : (match gridLookup g (r : Int) (c : Int) with
      | some s => if mt pat s then some (r, c) else none
      | none => none) = some x) :
    x = (r, c) ∧ ∃ s, gridLookup g (r : Int) (c : Int) = some s ∧
      mt pat s = true := by
  cases hg : gridLookup g (r : Int) (c : Int) with
  | none => rw [hg] at h; cases h
  | some s =>
      rw [hg] at h
      dsimp only at h
      by_cases hm : mt pat s = true
      · rw [if_pos hm] at h
        cases h
        exact ⟨rfl, s, rfl, hm⟩
      · rw [if_neg hm] at h
        cases h

theorem mem_matchCoords (mt : Matcher) (g : List (List String))
    (pat : String) (rc : Nat × Nat) :
    rc ∈ matchCoords mt g pat ↔
      ∃ s, gridLookup g (rc.1 : Int) (rc.2 : Int) = some s ∧
        mt pat s = true := by
  cases rc with
  | mk r c =>
      simp only [matchCoords, List.mem_flatMap, List.mem_filterMap,
        List.mem_range]
      constructor
      · rintro ⟨c2, hc2, r2, hr2, hf⟩
        obtain ⟨hx, s, hs, hm⟩ := matchCell_shape mt g pat c2 r2 (r, c) hf
        cases hx
        exact ⟨s, hs, hm⟩
      · rintro ⟨s, hs, hm⟩
        have hb := hs
        rw [gridLookup_natCast] at hb
        cases hrow : g.get? r with
        | none => rw [hrow] at hb; cases hb
        | some row =>
            rw [hrow] at hb
            dsimp only [Option.bind] at hb
            have hrlen : r < g.length := by
              have := List.get?_eq_some.mp hrow
              exact this.1
            have hclen : c < row.length := by
              have := List.get?_eq_some.mp hb
              exact this.1
            have hcnum : c < numCols g :=
              Nat.lt_of_lt_of_le hclen
                (numCols_ge g row (List.get?_mem hrow))
            refine ⟨c, hcnum, r, hrlen, ?_⟩
            rw [hs]
            dsimp only
            rw [if_pos hm]

theorem matchCoords_sorted (mt : Matcher) (g : List (List String))
    (pat : String) :
    (matchCoords mt g pat).Pairwise
      (fun a b => a.2 < b.2 ∨ (a.2 = b.2 ∧ a.1 < b.1)) := by
  unfold matchCoords
  rw [List.pairwise_flatMap]
  constructor
  · intro c hc
    rw [List.pairwise_filterMap]
    refine (List.pairwise_lt_range _).imp ?_
    intro r1 r2 h12 x hx y hy
    obtain ⟨hx1, _⟩ := matchCell_shape mt g pat c r1 x hx
    obtain ⟨hy1, _⟩ := matchCell_shape mt g pat c r2 y hy
    cases hx1
    cases hy1
    exact Or.inr ⟨rfl, h12⟩
  · refine (List.pairwise_lt_range _).imp ?_
    intro c1 c2 h12 x hx y hy
    obtain ⟨r1, _, hx2⟩ := List.mem_filterMap.mp hx
    obtain ⟨r2, _, hy2⟩ := List.mem_filterMap.mp hy
    obtain ⟨hx1, _⟩ := matchCell_shape mt g pat c1 r1 x hx2
    obtain ⟨hy1, _⟩ := matchCell_shape mt g pat c2 r2 y hy2
    cases hx1
    cases hy1
    exact Or.inl h12

theorem mapM_map_option {α β γ : Type} (l : List α) (f : α → β)
    (g : β → Option γ) :
    (l.map f).mapM g = l.mapM fun a => g (f a) := by
  induction l with
  | nil => rfl
  | cons a l ih => simp only [List.map_cons, List.mapM_cons, ih]

theorem extractOne_eq (mt : Matcher) (g : List (List String)) (pat : String)
    (pos : Int × Int) (maxM : Option Nat) :
    extractOne mt g pat pos maxM =
      (match maxM with
        | none => matchCoords mt g pat
        | some k => (matchCoords mt g pat).take k).mapM
        fun rc : Nat × Nat => gridLookup g ((rc.1 : Int) + pos.1)
          ((rc.2 : Int) + pos.2) := by
  unfold extractOne
  cases maxM with
  | none => exact mapM_map_option _ _ _
  | some k =>
      show (((matchCoords mt g pat).map fun rc : Nat × Nat =>
          ((rc.1 : Int) + pos.1, (rc.2 : Int) + pos.2)).take k).mapM
          (fun rc : Int × Int => gridLookup g rc.1 rc.2) = _
      rw [← List.map_take]
      exact mapM_map_option _ _ _

theorem foldlM_extract_eq (mt : Matcher) (g : List (List String))
    (maxM : Option Nat) (entries : List (String × (Int × Int))) :
    ∀ acc : List String,
      (entries.foldlM (fun acc pp => do
        let vals ← extractOne mt g pp.1 pp.2 maxM
        pure (acc ++ vals)) acc : Option (List String)) =
      ((entries.mapM fun pp => extractOne mt g pp.1 pp.2 maxM).map
        fun ls => acc ++ ls.join) := by
  induction entries with
  | nil =>
      intro acc
      show some acc = Option.map (fun ls => acc ++ ls.join) (some [])
      simp
  | cons e es ih =>
      intro acc
      simp only [List.foldlM_cons, List.mapM_cons]
      cases he : extractOne mt g e.1 e.2 maxM with
      | none => rfl
      | some vals =>
          show (es.foldlM _ (acc ++ vals) : Option (List String)) = _
          rw [ih (acc ++ vals)]
          cases hes : (es.mapM fun pp => extractOne mt g pp.1 pp.2 maxM) with
          | none => rfl
          | some ls =>
              show Option.map (fun ls => acc ++ vals ++ ls.join) (some ls) =
                Option.map (fun ls => acc ++ ls.join) (some (vals :: ls))
              show some (acc ++ vals ++ ls.join) =
                some (acc ++ (vals :: ls).join)
              rw [List.append_assoc]
              rfl

/-- **C8.**  For every Grid and extraction entry: matches are collected
column-major (strictly colexicographically ordered, and present exactly
for the in-range cells whose text matches), the ordered match list is
truncated to the first `regex_max` entries (all when unset), each
retained match at `(r, c)` contributes the Grid cell looked up at
`(r + rowOffset, c + colOffset)` — an out-of-range target is a lookup
failure (`none`) aborting the extraction rather than being clamped —
and the entries' outputs are concatenated in spec order. -/
theorem C8_extract_column_major_truncate_offset (mt : Matcher)
    (g : List (List String)) (patterns : List String)
    (pos : Option (List (Int × Int))) (maxM : Option Nat) :
    (∀ pat, (matchCoords mt g pat).Pairwise
      (fun a b => a.2 < b.2 ∨ (a.2 = b.2 ∧ a.1 < b.1))) ∧
    (∀ pat rc, rc ∈ matchCoords mt g pat ↔
      ∃ s, gridLookup g (rc.1 : Int) (rc.2 : Int) = some s ∧
        mt pat s = true) ∧
    pandas_extract mt g patterns pos maxM =
      ((patterns.zip (posList patterns pos)).mapM
        fun pp : String × (Int × Int) =>
        (match maxM with
          | none => matchCoords mt g pp.1
          | some k => (matchCoords mt g pp.1).take k).mapM
          fun rc : Nat × Nat => gridLookup g ((rc.1 : Int) + pp.2.1)
            ((rc.2 : Int) + pp.2.2)).map List.join := by
  refine ⟨fun pat => matchCoords_sorted mt g pat,
    fun pat rc => mem_matchCoords mt g pat rc, ?_⟩
  unfold pandas_extract
  rw [foldlM_extract_eq mt g maxM (patterns.zip (posList patterns pos)) []]
  have he : ∀ pp : String × (Int × Int),
      extractOne mt g pp.1 pp.2 maxM =
        (match maxM with
          | none => matchCoords mt g pp.1
          | some k => (matchCoords mt g pp.1).take k).mapM
          fun rc : Nat × Nat => gridLookup g ((rc.1 : Int) + pp.2.1)
            ((rc.2 : Int) + pp.2.2) :=
    fun pp => extractOne_eq mt g pp.1 pp.2 maxM
  simp only [he]
  cases (patterns.zip (posList patterns pos)).mapM
      fun pp : String × (Int × Int) =>
      (match maxM with
        | none => matchCoords mt g pp.1
        | some k => (matchCoords mt g pp.1).take k).mapM
        fun rc : Nat × Nat => gridLookup g ((rc.1 : Int) + pp.2.1)
          ((rc.2 : Int) + pp.2.2) with
  | none => rfl
  | some ls => show some ([] ++ ls.join) = some ls.join ; rw [List.nil_append]

/-! ## Claim C3: a span-free table passes through verbatim -/

theorem load_empty (r c : Nat) : load_row_col_span r c (∅ : SpanMap) = [] :=
  rfl

theorem save_noAttrs (r c : Nat) (cell : Cell) (m : SpanMap)
    (hr : cell.attrs.lookup "rowspan" = none)
    (hc : cell.attrs.lookup "colspan" = none) :
    save_row_col_span r c cell m = (m, cell.content) := by
  unfold save_row_col_span
  rw [saveCoords_noAttrs r c cell hr hc]
  rfl

theorem cellStep_plain (rowIdx colRaw : Nat) (cell : Cell)
    (acc : List String)
    (hr : cell.attrs.lookup "rowspan" = none)
    (hc : cell.attrs.lookup "colspan" = none) :
    cellStep rowIdx colRaw cell ⟨∅, 0, acc⟩ =
      ⟨∅, 0, acc ++ [(get_clean_text_from_soup cell.content).1]⟩ := by
  have hs := save_noAttrs rowIdx (colRaw + 0) cell ∅ hr hc
  have hemit : emitsOwnText rowIdx (colRaw + 0) cell ∅ = true := by
    unfold emitsOwnText
    rw [hs]
    rfl
  have hR : cell.hasAttr "rowspan" = false := by simp [Cell.hasAttr, hr]
  have hC : cell.hasAttr "colspan" = false := by simp [Cell.hasAttr, hc]
  unfold cellStep
  dsimp only
  rw [hs, hemit]
  dsimp only
  rw [load_empty]
  rw [if_pos ⟨by rw [hC]; exact Bool.false_ne_true,
    by rw [hR]; exact Bool.false_ne_true⟩]
  simp

theorem cellsFold_plain (oracle : LinkOracle) (rowIdx : Nat)
    (cells : List Cell) :
    ∀ (colRaw : Nat) (acc linked : List String),
      (∀ cell ∈ cells, cell.attrs.lookup "rowspan" = none ∧
        cell.attrs.lookup "colspan" = none) →
      cellsFold oracle defaultOptions rowIdx colRaw cells ⟨∅, 0, acc⟩ linked =
        Except.ok
          (⟨∅, 0, acc ++ cells.map
            fun c => (get_clean_text_from_soup c.content).1⟩, linked) := by
  induction cells with
  | nil =>
      intro colRaw acc linked _
      show Except.ok (({ spans := ∅, colOff := 0, toYield := acc } :
        GenState), linked) = _
      rw [List.map_nil, List.append_nil]
  | cons cell rest ih =>
      intro colRaw acc linked hplain
      have hcell := hplain cell (List.mem_cons_self _ _)
      have hrest : ∀ c ∈ rest, c.attrs.lookup "rowspan" = none ∧
          c.attrs.lookup "colspan" = none :=
        fun c hc => hplain c (List.mem_cons_of_mem _ hc)
      unfold cellsFold
      have hhl : handle_links oracle rowIdx (colRaw + 0) cell
          defaultOptions = Except.ok [] := rfl
      rw [hhl]
      show cellsFold oracle defaultOptions rowIdx (colRaw + 1) rest
          (cellStep rowIdx colRaw cell ⟨∅, 0, acc⟩) (linked ++ []) = _
      rw [cellStep_plain rowIdx colRaw cell acc hcell.1 hcell.2,
        List.append_nil]
      rw [ih (colRaw + 1)
        (acc ++ [(get_clean_text_from_soup cell.content).1]) linked hrest]
      rw [List.map_cons, List.append_assoc]
      rfl

theorem rowStep_plain (oracle : LinkOracle) (rowIdx : Nat)
    (cells : List Cell)
    (hplain : ∀ cell ∈ cells, cell.attrs.lookup "rowspan" = none ∧
      cell.attrs.lookup "colspan" = none) :
    rowStep oracle defaultOptions rowIdx cells ∅ =
      Except.ok
        (cells.map fun c => (get_clean_text_from_soup c.content).1, ∅) := by
  unfold rowStep
  have hif : (if defaultOptions.row_th then 1 else 0) = 0 := rfl
  rw [hif, List.drop_zero, load_empty, List.length_nil]
  rw [cellsFold_plain oracle rowIdx cells 0 [] [] hplain]
  show Except.ok
      (([] : List String) ++
        (cells.map fun c => (get_clean_text_from_soup c.content).1) ++ [],
        (∅ : SpanMap)) = _
  rw [List.nil_append, List.append_nil]

theorem bodyGo_plain (oracle : LinkOracle) (rows : List (List Cell)) :
    ∀ rowIdx : Nat,
      (∀ row ∈ rows, ∀ cell ∈ row, cell.attrs.lookup "rowspan" = none ∧
        cell.attrs.lookup "colspan" = none) →
      bodyGo oracle defaultOptions rowIdx ∅ rows =
        Except.ok (rows.map fun row => row.map
          fun c => (get_clean_text_from_soup c.content).1) := by
  induction rows with
  | nil => intro _ _; rfl
  | cons row rest ih =>
      intro rowIdx hplain
      unfold bodyGo
      rw [rowStep_plain oracle rowIdx row
        (hplain row (List.mem_cons_self _ _))]
      show bodyGo oracle defaultOptions (rowIdx + 1) ∅ rest >>= _ = _
      rw [ih (rowIdx + 1) fun r hr => hplain r (List.mem_cons_of_mem _ hr)]
      rfl

/-- **C3.**  A table whose cells carry no `rowspan`/`colspan`
attributes, processed with both header modes disabled and no filters,
links or extraction specs configured (the default options), produces
exactly the row-major sequence of its cells' texts with the Text
Normalizer applied to each cell. -/
theorem C3_plain_table_grid (oracle : LinkOracle) (table : List (List Cell))
    (hplain : ∀ row ∈ table, ∀ cell ∈ row,
      cell.attrs.lookup "rowspan" = none ∧
      cell.attrs.lookup "colspan" = none) :
    wikiGrid oracle table defaultOptions =
      Except.ok (table.map fun row => row.map
        fun cell => (get_clean_text_from_soup cell.content).1) := by
  unfold wikiGrid generate_body
  show bodyGo oracle defaultOptions 0 ∅ (table.drop 0) >>= _ = _
  rw [List.drop_zero, bodyGo_plain oracle table 0 hplain]
  rfl

/-- Witness for C3: a concrete 2×2 plain table. -/
theorem C3_plain_table_grid_witness :
    wikiGrid (fun _ _ _ => [])
      [[⟨[], Node.txt "a"⟩, ⟨[], Node.txt "b"⟩],
        [⟨[], Node.txt "c"⟩, ⟨[], Node.txt "d"⟩]] defaultOptions =
      Except.ok [["a", "b"], ["c", "d"]] := by
  rw [C3_plain_table_grid (fun _ _ _ => [])
    [[⟨[], Node.txt "a"⟩, ⟨[], Node.txt "b"⟩],
      [⟨[], Node.txt "c"⟩, ⟨[], Node.txt "d"⟩]] (by decide)]
  rfl

/-! ## Claim C5: the span-map invariant

The instrumented trace lets the invariant speak about "some earlier
cell's span extent" (`processed` and `saveCoords`) and "has received its
own independent cell" (`emitted`). -/

/-- The claim-relevant part of the invariant: a coordinate is a key of
the span dictionary iff it lies in the registered extent of some
already-processed cell, and no dictionary key ever belongs to a
coordinate that independently emitted its own text. -/
@[reducible] def SpanInv (t : TState) : Prop :=
  (∀ p : Nat × Nat, p ∈ t.core.spans.keys ↔
    ∃ e ∈ t.processed, p ∈ saveCoords e.1.1 e.1.2 e.2) ∧
  (∀ p ∈ t.emitted, p ∉ t.core.spans.keys)

/-- The full induction invariant: additionally, every independently
emitted coordinate lies strictly before the current cursor position
`(rowIdx, colBound)` in processing order. -/
@[reducible] def InvAt (rowIdx colBound : Nat) (t : TState) : Prop :=
  SpanInv t ∧
  ∀ p ∈ t.emitted, p.1 < rowIdx ∨ (p.1 = rowIdx ∧ p.2 < colBound)

/-- The invariant at a row boundary: all emissions lie in earlier rows. -/
@[reducible] def InvRow (rowIdx : Nat) (t : TState) : Prop :=
  SpanInv t ∧ ∀ p ∈ t.emitted, p.1 < rowIdx

theorem cellStep_spans (rowIdx colRaw : Nat) (cell : Cell) (st : GenState) :
    (cellStep rowIdx colRaw cell st).spans =
      (save_row_col_span rowIdx (colRaw + st.colOff) cell st.spans).1 := rfl

theorem cellStep_colOff_mono (rowIdx colRaw : Nat) (cell : Cell)
    (st : GenState) : st.colOff ≤ (cellStep rowIdx colRaw cell st).colOff := by
  unfold cellStep
  dsimp only
  split
  · exact Nat.le_add_right _ _
  · exact Nat.le_refl _

theorem emitsOwnText_iff_not_mem (rowIdx colIdx : Nat) (cell : Cell)
    (m : SpanMap) :
    emitsOwnText rowIdx colIdx cell m = true ↔
      (rowIdx, colIdx) ∉
        ((save_row_col_span rowIdx colIdx cell m).1).keys := by
  unfold emitsOwnText
  rw [Option.isNone_iff_eq_none, ← Option.not_isSome_iff_eq_none]
  rw [show (((save_row_col_span rowIdx colIdx cell m).1).get?
      (rowIdx, colIdx)).isSome = true ↔ (rowIdx, colIdx) ∈
      ((save_row_col_span rowIdx colIdx cell m).1).keys from
    SpanMap.isSome_get?_iff _ _]

/-- The invariant survives one instrumented cell step, the cursor bound
moving to the next cell's position. -/
theorem traceCell_inv (rowIdx colRaw : Nat) (cell : Cell) (t : TState)
    (h : InvAt rowIdx (colRaw + t.core.colOff) t) :
    InvAt rowIdx
      ((colRaw + 1) + (traceCell rowIdx colRaw cell t).core.colOff)
      (traceCell rowIdx colRaw cell t) := by
  obtain ⟨⟨h1, h2⟩, h3⟩ := h
  have hmono := cellStep_colOff_mono rowIdx colRaw cell t.core
  have hkeys : ∀ p : Nat × Nat,
      p ∈ (traceCell rowIdx colRaw cell t).core.spans.keys ↔
        p ∈ saveCoords rowIdx (colRaw + t.core.colOff) cell ∨
          p ∈ t.core.spans.keys := by
    intro p
    show p ∈ (cellStep rowIdx colRaw cell t.core).spans.keys ↔ _
    rw [cellStep_spans]
    exact save_row_col_span_mem_keys rowIdx (colRaw + t.core.colOff) cell
      t.core.spans p
  refine ⟨⟨?_, ?_⟩, ?_⟩
  · intro p
    rw [hkeys p, h1 p]
    show _ ↔ ∃ e ∈ t.processed ++ [((rowIdx, colRaw + t.core.colOff), cell)],
      p ∈ saveCoords e.1.1 e.1.2 e.2
    constructor
    · rintro (hp | ⟨e, he, hpe⟩)
      · exact ⟨((rowIdx, colRaw + t.core.colOff), cell),
          List.mem_append_right _ (List.mem_cons_self _ _), hp⟩
      · exact ⟨e, List.mem_append_left _ he, hpe⟩
    · rintro ⟨e, he, hpe⟩
      rcases List.mem_append.mp he with he2 | he2
      · exact Or.inr ⟨e, he2, hpe⟩
      · rcases List.mem_cons.mp he2 with rfl | he3
        · exact Or.inl hpe
        · cases he3
  · intro p hp
    show p ∉ (cellStep rowIdx colRaw cell t.core).spans.keys
    rcases List.mem_append.mp hp with hold | hnew
    · intro hmem
      rw [show (cellStep rowIdx colRaw cell t.core).spans.keys =
          (traceCell rowIdx colRaw cell t).core.spans.keys from rfl,
        hkeys p] at hmem
      rcases hmem with hcov | hmem2
      · have hb := saveCoords_bound rowIdx (colRaw + t.core.colOff) cell p hcov
        rcases h3 p hold with hlt | ⟨heq, hlt⟩
        · omega
        · omega
      · exact h2 p hold hmem2
    · by_cases hem : emitsOwnText rowIdx (colRaw + t.core.colOff) cell
          t.core.spans = true
      · rw [if_pos hem] at hnew
        rcases List.mem_cons.mp hnew with rfl | hvac
        · rw [cellStep_spans]
          exact (emitsOwnText_iff_not_mem rowIdx (colRaw + t.core.colOff)
            cell t.core.spans).mp hem
        · cases hvac
      · rw [if_neg hem] at hnew
        cases hnew
  · intro p hp
    rcases List.mem_append.mp hp with hold | hnew
    · rcases h3 p hold with hlt | ⟨heq, hlt⟩
      · exact Or.inl hlt
      · refine Or.inr ⟨heq, ?_⟩
        show p.2 < colRaw + 1 + (cellStep rowIdx colRaw cell t.core).colOff
        omega
    · by_cases hem : emitsOwnText rowIdx (colRaw + t.core.colOff) cell
          t.core.spans = true
      · rw [if_pos hem] at hnew
        rcases List.mem_cons.mp hnew with rfl | hvac
        · refine Or.inr ⟨rfl, ?_⟩
          show colRaw + t.core.colOff <
            colRaw + 1 + (cellStep rowIdx colRaw cell t.core).colOff
          omega
        · cases hvac
      · rw [if_neg hem] at hnew
        cases hnew

theorem lastState_cons (t x : TState) (l : List TState) :
    lastState t (x :: l) = lastState x l := by
  cases l with
  | nil => rfl
  | cons y l => show (x :: y :: l).getLast?.getD t = _
                rw [List.getLast?_cons_cons]
                rfl

theorem traceRowGo_inv (rowIdx : Nat) (cells : List Cell) :
    ∀ (colRaw : Nat) (t : TState),
      InvAt rowIdx (colRaw + t.core.colOff) t →
      (∀ t2 ∈ traceRowGo rowIdx colRaw cells t, SpanInv t2) ∧
      ∃ b, InvAt rowIdx b (lastState t (traceRowGo rowIdx colRaw cells t)) := by
  induction cells with
  | nil =>
      intro colRaw t h
      refine ⟨?_, ⟨colRaw + t.core.colOff, h⟩⟩
      intro t2 ht2
      cases ht2
  | cons cell rest ih =>
      intro colRaw t h
      have hstep := traceCell_inv rowIdx colRaw cell t h
      obtain ⟨ha, hb⟩ := ih (colRaw + 1) (traceCell rowIdx colRaw cell t) hstep
      constructor
      · intro t2 ht2
        rcases List.mem_cons.mp ht2 with rfl | ht3
        · exact hstep.1
        · exact ha t2 ht3
      · show ∃ b, InvAt rowIdx b
          (lastState t (traceCell rowIdx colRaw cell t ::
            traceRowGo rowIdx (colRaw + 1) rest
              (traceCell rowIdx colRaw cell t)))
        rw [lastState_cons]
        exact hb

theorem rowInit_spanInv (rowIdx : Nat) (t : TState) (h : SpanInv t) :
    SpanInv (rowInit rowIdx t) := h

theorem bodyTraceGo_inv (rows : List (List Cell)) :
    ∀ (rowIdx : Nat) (t : TState), InvRow rowIdx t →
      ∀ t2 ∈ bodyTraceGo rowIdx t rows, SpanInv t2 := by
  induction rows with
  | nil => intro rowIdx t _ t2 ht2; cases ht2
  | cons cells rest ih =>
      intro rowIdx t h t2 ht2
      have h0 : InvAt rowIdx (0 + (rowInit rowIdx t).core.colOff)
          (rowInit rowIdx t) :=
        ⟨h.1, fun p hp => Or.inl (h.2 p hp)⟩
      obtain ⟨ha, b, hlast⟩ :=
        traceRowGo_inv rowIdx cells 0 (rowInit rowIdx t) h0
      rcases List.mem_append.mp ht2 with hm | hm
      · exact ha t2 hm
      · refine ih (rowIdx + 1)
          (lastState (rowInit rowIdx t)
            (traceRowGo rowIdx 0 cells (rowInit rowIdx t))) ?_ t2 hm
        refine ⟨hlast.1, fun p hp => ?_⟩
        rcases hlast.2 p hp with hlt | ⟨heq, _⟩
        · omega
        · omega

/-- **C5.**  At every point during a single table extraction (every
intermediate state of the instrumented body generator), a coordinate is
present in the span dictionary iff the registered span extent of some
already-processed cell covers it and the coordinate has not received
its own independently emitted cell — the latter can in fact never
happen to a covered coordinate, because the emit guard consults the
dictionary first. -/
theorem C5_span_map_invariant (table : List (List Cell)) (t : TState)
    (ht : t ∈ bodyTrace table) (r c : Nat) :
    (r, c) ∈ t.core.spans.keys ↔
      ((∃ e ∈ t.processed, (r, c) ∈ saveCoords e.1.1 e.1.2 e.2) ∧
        (r, c) ∉ t.emitted) := by
  have hinv : SpanInv t := by
    rcases List.mem_cons.mp ht with rfl | hm
    · constructor
      · intro p
        constructor
        · intro hp
          cases hp
        · rintro ⟨e, he, _⟩
          cases he
      · intro p hp
        cases hp
    · refine bodyTraceGo_inv table 0 initTState ?_ t hm
      refine ⟨⟨fun p => ?_, fun p hp => ?_⟩, fun p hp => ?_⟩
      · constructor
        · intro hp
          cases hp
        · rintro ⟨e, he, _⟩
          cases he
      · cases hp
      · cases hp
  obtain ⟨h1, h2⟩ := hinv
  constructor
  · intro hmem
    exact ⟨(h1 (r, c)).mp hmem, fun hem => h2 (r, c) hem hmem⟩
  · rintro ⟨hcov, _⟩
    exact (h1 (r, c)).mpr hcov

/-- Witness for C5: the trace state after processing the single
`rowspan = 2, colspan = 2` cell of a one-cell table, evaluated at the
covered coordinate `(1, 1)`. -/
theorem C5_span_map_invariant_witness :
    ((1, 1) ∈ (traceCell 0 0 ⟨[("rowspan", 2), ("colspan", 2)], Node.txt "S"⟩
        (rowInit 0 initTState)).core.spans.keys ↔
      ((∃ e ∈ (traceCell 0 0 ⟨[("rowspan", 2), ("colspan", 2)], Node.txt "S"⟩
          (rowInit 0 initTState)).processed,
          (1, 1) ∈ saveCoords e.1.1 e.1.2 e.2) ∧
        (1, 1) ∉ (traceCell 0 0 ⟨[("rowspan", 2), ("colspan", 2)], Node.txt "S"⟩
          (rowInit 0 initTState)).emitted)) := by
  refine C5_span_map_invariant
    [[⟨[("rowspan", 2), ("colspan", 2)], Node.txt "S"⟩]]
    (traceCell 0 0 ⟨[("rowspan", 2), ("colspan", 2)], Node.txt "S"⟩
      (rowInit 0 initTState)) ?_ 1 1
  have htr : bodyTrace [[⟨[("rowspan", 2), ("colspan", 2)], Node.txt "S"⟩]] =
      [initTState,
        traceCell 0 0 ⟨[("rowspan", 2), ("colspan", 2)], Node.txt "S"⟩
          (rowInit 0 initTState)] := rfl
  rw [htr]
  exact List.mem_cons_of_mem _ (List.mem_cons_self _ _)

end WikiTable
